import Mathlib

/-!
The wikilink extension (`Source/cmark_gfm/wikilink.c`).

A shallow embedding of the inline matcher `match` and of the HTML renderer
`html_render`, together with the host operations they call.

Conventions of the embedding.

* A byte is a natural number (the code only compares bytes for equality with
  `[` = 91, `]` = 93, `|` = 124 and the terminator 0).
* A chunk (`cmark_chunk`: pointer and length) is the list of its `len` bytes.
  The chunk of the inline parser lies inside a larger block of memory; the
  bytes of that block that follow the chunk are part of the parser state,
  because `match` reads `data[end]` without comparing `end` with the length.
* A C string (`const char *`) is the list of the bytes of the memory block it
  points to; its text is what precedes the first 0 byte.
* Offsets and lengths are naturals; the conversion to `size_t` that can wrap
  (`len - 4`) and the 32-bit `int` sum that can wrap (`end_column`) are
  modelled explicitly.
* A call that reaches undefined behaviour of C (a read or a copy outside its
  block) has the outcome `undefined`.
-/

namespace Wikilink

/-! ## Data model -/

/-- The fields of `cmark_node` that the extension reads or writes. -/
structure Node where
  type : Nat
  title : List Nat
  url : List Nat
  start_line : Int
  end_line : Int
  start_column : Int
  end_column : Int
deriving DecidableEq

/-- The state of the host inline parser (the host's `subject`): the input
chunk, the bytes that follow the chunk in the block its data pointer points
into, the position `pos`, the line, and the two offsets from which the host
computes the column. -/
structure InlineParser where
  chunk : List Nat
  after : List Nat
  offset : Nat
  line : Int
  block_offset : Int
  column_offset : Int
deriving DecidableEq

/-- The traversal events of `cmark_event_type`. -/
inductive cmark_event_type where
  | CMARK_EVENT_NONE
  | CMARK_EVENT_DONE
  | CMARK_EVENT_ENTER
  | CMARK_EVENT_EXIT
deriving DecidableEq

/-- What a call of `match` does: it reaches undefined behaviour, or it returns
a node pointer (`none` is `NULL`) and leaves the inline parser in a state. -/
inductive Outcome where
  | undefined
  | returned (node : Option Node) (parser : InlineParser)
deriving DecidableEq

/-- What a step of `match` that reads memory does: the read lies outside the
block (`fault`, undefined behaviour), the step ends in `return NULL` (`null`),
or the step yields a value. -/
inductive Step (α : Type) where
  | fault : Step α
  | null : Step α
  | value (a : α) : Step α
deriving DecidableEq

/-! ## Host operations on chunks, C strings, string buffers and the parser -/

/-- The read `data[i]`, where `data` is the block of memory that the data
pointer of the chunk points into (the chunk followed by what lies after it).
The read is not compared with the length of the chunk; `none` means that the
index lies outside the block. -/
def byteAt (data : List Nat) (i : Nat) : Option Nat := data[i]?

/-- The value of a sum computed in `int`, wrapped to 32 bits (two's
complement). -/
def int32 (i : Int) : Int := (i + 2147483648) % 4294967296 - 2147483648

/-- The host function `cmark_inline_parser_get_line`. -/
def cmark_inline_parser_get_line (ip : InlineParser) : Int := ip.line

/-- The host function `cmark_inline_parser_get_column`: the column is
`pos - column_offset + block_offset`, so it moves with the offset. -/
def cmark_inline_parser_get_column (ip : InlineParser) : Int :=
  int32 ((ip.offset : Int) - ip.column_offset + ip.block_offset)

/-- The host function `cmark_inline_parser_set_offset`. -/
def cmark_inline_parser_set_offset (ip : InlineParser) (offset : Nat) : InlineParser :=
  { ip with offset := offset }

/-- The host function `cmark_node_new_with_mem`: a zeroed node whose `type`
field, 16 bits wide, holds the type tag. -/
def cmark_node_new_with_mem (type : Nat) : Node :=
  { type := type % 65536, title := [], url := [], start_line := 0, end_line := 0,
    start_column := 0, end_column := 0 }

/-- The C function `strlen`: the number of bytes before the first 0. -/
def strlen (s : List Nat) : Nat := (s.takeWhile (fun c => decide (c ≠ 0))).length

/-- The text of a C string: the bytes before the first 0. -/
def cstr (s : List Nat) : List Nat := s.take (strlen s)

/-- The host function `cmark_chunk_to_cstr`: a fresh block holding the bytes
of the chunk followed by a terminating 0. -/
def cmark_chunk_to_cstr (c : List Nat) : List Nat := c ++ [0]

/-- The host function `cmark_chunk_literal`: the chunk that starts where the C
string starts and has length `strlen`. -/
def cmark_chunk_literal (s : List Nat) : List Nat := s.take (strlen s)

/-- The host function `cmark_strbuf_puts`: appends the `strlen` bytes of the C
string to the buffer. -/
def cmark_strbuf_puts (buf s : List Nat) : List Nat := buf ++ s.take (strlen s)

/-- The C function `memcpy(dst, src + off, n)` seen from the source block: the
`n` bytes copied, when they all lie inside the block `src`; no result when the
copy runs past the block. -/
def memcpy (src : List Nat) (off n : Nat) : Option (List Nat) :=
  if off + n ≤ src.length then some ((src.drop off).take n) else none

/-- The C function `strtok` on the text `s` that its scan pointer points to:
leading delimiters are skipped; at the end of the text the result is `NULL`;
otherwise the token runs up to the next delimiter (or the end of the text) and
the scan pointer is left just past that delimiter. The result is the token
together with the text that the scan pointer is left on. -/
def strtok (s : List Nat) (delim : List Nat) : Option (List Nat × List Nat) :=
  let s1 := s.dropWhile (fun c => decide (c ∈ delim))
  if s1 = [] then none
  else some (s1.takeWhile (fun c => decide (c ∉ delim)),
             (s1.dropWhile (fun c => decide (c ∉ delim))).drop 1)

/-- The conversion `(size_t)(len - 4)` of line 65: the difference is computed
in `int`, and a negative difference wraps around modulo `2^64`. -/
def contentsLenOf (len : Nat) : Nat :=
  if len < 4 then 2 ^ 64 - (4 - len) else len - 4

/-! ## The matcher -/

/-- The loop of lines 40-42, `while (end < size && data[end] != ']') end++`,
run for at most `fuel` iterations. -/
def scanLoop (data : List Nat) (size : Nat) : Nat → Nat → Nat
  | 0, end_ => end_
  | fuel + 1, end_ =>
    if end_ < size ∧ byteAt data end_ ≠ some 93 then
      scanLoop data size fuel (end_ + 1)
    else end_

/-- The loop of lines 45-51: two iterations, each of which reads `data[end]`,
with no comparison of `end` with `size`, needs the byte to be `]` and then
increments `end`. -/
def consumeClosing (data : List Nat) (end_ : Nat) : Step Nat :=
  match byteAt data end_ with
  | none => Step.fault
  | some b =>
    if b = 93 then
      match byteAt data (end_ + 1) with
      | none => Step.fault
      | some b2 => if b2 = 93 then Step.value (end_ + 1 + 1) else Step.null
    else Step.null

/-- Lines 83-112 of `match`: the two `strtok` calls on `contents`, the node
that is built from the tokens, and the new parser offset. `end_` is the value
of `end` after the two loops and `len` is `wikilink_chunk->len`. The node is
the one that line 57 made with `cmark_node_new_with_mem`. -/
def matchTokens (CMARK_NODE_WIKILINK : Nat) (ip : InlineParser) (end_ len : Nat)
    (contents : List Nat) : Outcome :=
  let start := ip.offset
  let node := cmark_node_new_with_mem CMARK_NODE_WIKILINK
  match strtok (cstr contents) [124] with
  | none => Outcome.returned none ip
  | some (title, rest) =>
    let titleChunk := cmark_chunk_literal (title ++ [0])
    match strtok rest [124] with
    | none =>
      Outcome.returned
        (some { node with
                title := titleChunk, url := titleChunk,
                start_line := cmark_inline_parser_get_line ip,
                end_line := cmark_inline_parser_get_line ip,
                start_column := cmark_inline_parser_get_column ip,
                end_column := int32 (cmark_inline_parser_get_column ip + (len : Int)) })
        (cmark_inline_parser_set_offset ip (start + (end_ - start)))
    | some (link, _) =>
      if strlen (link ++ [0]) > 0 then
        Outcome.returned
          (some { node with
                  title := titleChunk, url := cmark_chunk_literal (link ++ [0]),
                  start_line := cmark_inline_parser_get_line ip,
                  end_line := cmark_inline_parser_get_line ip,
                  start_column := cmark_inline_parser_get_column ip,
                  end_column := int32 (cmark_inline_parser_get_column ip + (len : Int)) })
          (cmark_inline_parser_set_offset ip (start + (end_ - start)))
      else Outcome.returned none ip

/-- Lines 76-81 of `match`, followed by `matchTokens`: `copied` holds the
`contentsLen` bytes that line 75 copied into `contents`. The index
`strlen(contents) - 1` is computed in `size_t`; when `strlen(contents)` is 0
the read lies outside the block. -/
def matchContents (CMARK_NODE_WIKILINK : Nat) (ip : InlineParser) (end_ len : Nat)
    (copied : List Nat) : Outcome :=
  let contents := copied ++ [0]
  if contents[0]? = some 124 then Outcome.returned none ip
  else if strlen contents = 0 then Outcome.undefined
  else if contents[strlen contents - 1]? = some 124 then Outcome.returned none ip
  else matchTokens CMARK_NODE_WIKILINK ip end_ len contents

/-- The function `match` of `wikilink.c`. `CMARK_NODE_WIKILINK` is the value of
the global of that name, `character` the trigger character and `ip` the state
of the inline parser at the call. `data` is the block that `chunk->data` points
into and `size` is `chunk->len`. Lines 25-75 are here, the rest of the body is
`matchContents` and `matchTokens`. -/
def match_ (CMARK_NODE_WIKILINK : Nat) (character : Nat) (ip : InlineParser) : Outcome :=
  if character ≠ 91 then Outcome.returned none ip
  else
    let data := ip.chunk ++ ip.after
    let size := ip.chunk.length
    let start := ip.offset
    let at_ := start + 1
    if start > 0 ∧ byteAt data start = none then Outcome.undefined
    else if start > 0 ∧ byteAt data start ≠ some 91 then Outcome.returned none ip
    else
      match consumeClosing data (scanLoop data size (size - at_) at_) with
      | Step.fault => Outcome.undefined
      | Step.null => Outcome.returned none ip
      | Step.value end_ =>
        if end_ = at_ then Outcome.returned none ip
        else
          let wikilink_chunk := (data.drop start).take (end_ - start)
          let len := end_ - start
          let contentsLen := contentsLenOf len
          if contentsLen = 0 then Outcome.returned none ip
          else
            let fullStr := cmark_chunk_to_cstr wikilink_chunk
            match memcpy fullStr 2 contentsLen with
            | none => Outcome.undefined
            | some copied => matchContents CMARK_NODE_WIKILINK ip end_ len copied

/-! ## The accessors and the renderer -/

/-- The accessor `cmark_gfm_extensions_get_wikilink_title`; `none` is `NULL`. -/
def cmark_gfm_extensions_get_wikilink_title (CMARK_NODE_WIKILINK : Nat)
    (node : Option Node) : Option (List Nat) :=
  match node with
  | none => none
  | some n => if n.type ≠ CMARK_NODE_WIKILINK then none else some (cmark_chunk_to_cstr n.title)

/-- The accessor `cmark_gfm_extensions_get_wikilink_url`; `none` is `NULL`. -/
def cmark_gfm_extensions_get_wikilink_url (CMARK_NODE_WIKILINK : Nat)
    (node : Option Node) : Option (List Nat) :=
  match node with
  | none => none
  | some n => if n.type ≠ CMARK_NODE_WIKILINK then none else some (cmark_chunk_to_cstr n.url)

/-- The bytes of the first C literal of `html_render`: `<a href=` and a double
quote. -/
def litOpen : List Nat := [60, 97, 32, 104, 114, 101, 102, 61, 34]

/-- The bytes of the second C literal of `html_render`: a double quote and `>`. -/
def litMid : List Nat := [34, 62]

/-- The bytes of the C literal `</a>`. -/
def litClose : List Nat := [60, 47, 97, 62]

/-- The function `html_render` of `wikilink.c`, as a transformer of the output
buffer `renderer->html`. -/
def html_render (CMARK_NODE_WIKILINK : Nat) (html : List Nat) (node : Option Node)
    (ev_type : cmark_event_type) : List Nat :=
  if ev_type ≠ cmark_event_type.CMARK_EVENT_ENTER then html
  else
    match cmark_gfm_extensions_get_wikilink_title CMARK_NODE_WIKILINK node,
          cmark_gfm_extensions_get_wikilink_url CMARK_NODE_WIKILINK node with
    | some title, some url =>
      let html1 := cmark_strbuf_puts html (litOpen ++ [0])
      let html2 := cmark_strbuf_puts html1 url
      let html3 := cmark_strbuf_puts html2 (litMid ++ [0])
      let html4 := cmark_strbuf_puts html3 title
      cmark_strbuf_puts html4 (litClose ++ [0])
    | _, _ => html

/-! ## C strings without an inner terminator -/

theorem takeWhile_nonzero_append (t r : List Nat) (h0 : 0 ∉ t) :
    (t ++ 0 :: r).takeWhile (fun c => decide (c ≠ 0)) = t := by
  induction t with
  | nil => simp
  | cons a t ih =>
    have ha : a ≠ 0 := fun h => h0 (by simp [h])
    have ht : 0 ∉ t := fun h => h0 (by simp [h])
    simp only [List.cons_append, List.takeWhile_cons, ha, ne_eq, not_false_eq_true,
      decide_True, if_true, ih ht]

theorem strlen_terminated (t r : List Nat) (h0 : 0 ∉ t) :
    strlen (t ++ 0 :: r) = t.length := by
  unfold strlen
  rw [takeWhile_nonzero_append t r h0]

theorem take_strlen_terminated (t r : List Nat) (h0 : 0 ∉ t) :
    (t ++ 0 :: r).take (strlen (t ++ 0 :: r)) = t := by
  rw [strlen_terminated t r h0]
  simp

theorem cstr_terminated (t r : List Nat) (h0 : 0 ∉ t) : cstr (t ++ 0 :: r) = t :=
  take_strlen_terminated t r h0

theorem cmark_chunk_literal_terminated (t r : List Nat) (h0 : 0 ∉ t) :
    cmark_chunk_literal (t ++ 0 :: r) = t :=
  take_strlen_terminated t r h0

theorem cmark_strbuf_puts_terminated (buf t r : List Nat) (h0 : 0 ∉ t) :
    cmark_strbuf_puts buf (t ++ 0 :: r) = buf ++ t := by
  unfold cmark_strbuf_puts
  rw [take_strlen_terminated t r h0]

/-- The text of a C string is the run of non-zero bytes at its start. -/
theorem cstr_eq_takeWhile (s : List Nat) :
    cstr s = s.takeWhile (fun c => decide (c ≠ 0)) := by
  unfold cstr strlen
  induction s with
  | nil => simp
  | cons a s ih =>
    by_cases ha : a = 0
    · simp [List.takeWhile_cons, ha]
    · simp only [List.takeWhile_cons, ha, ne_eq, not_false_eq_true, decide_True, if_true,
        List.length_cons, List.take_succ_cons, ih]

theorem zero_not_mem_cstr (s : List Nat) : 0 ∉ cstr s := by
  rw [cstr_eq_takeWhile]
  intro h
  have := List.mem_takeWhile_imp h
  simp at this

/-! ## The renderer on a wikilink node -/

theorem html_render_enter (wl : Nat) (b : List Nat) (n : Node) (hty : n.type = wl)
    (ht : 0 ∉ n.title) (hu : 0 ∉ n.url) :
    html_render wl b (some n) cmark_event_type.CMARK_EVENT_ENTER
      = b ++ litOpen ++ n.url ++ litMid ++ n.title ++ litClose := by
  have h1 : (0 : Nat) ∉ litOpen := by decide
  have h2 : (0 : Nat) ∉ litMid := by decide
  have h3 : (0 : Nat) ∉ litClose := by decide
  simp only [html_render, cmark_gfm_extensions_get_wikilink_title,
    cmark_gfm_extensions_get_wikilink_url, cmark_chunk_to_cstr, hty, ne_eq,
    not_true_eq_false, if_false]
  rw [cmark_strbuf_puts_terminated _ _ _ h1, cmark_strbuf_puts_terminated _ _ _ hu,
    cmark_strbuf_puts_terminated _ _ _ h2, cmark_strbuf_puts_terminated _ _ _ ht,
    cmark_strbuf_puts_terminated _ _ _ h3]

/-! ## Runs of bytes that satisfy a test -/

theorem takeWhile_append_stop (p : Nat → Bool) (t r : List Nat) (x : Nat)
    (ht : ∀ a ∈ t, p a = true) (hx : p x = false) :
    (t ++ x :: r).takeWhile p = t := by
  induction t with
  | nil => simp [List.takeWhile_cons, hx]
  | cons a t ih =>
    have ha : p a = true := ht a (by simp)
    have ht2 : ∀ b ∈ t, p b = true := fun b hb => ht b (by simp [hb])
    simp only [List.cons_append, List.takeWhile_cons, ha, if_true, ih ht2]

theorem dropWhile_append_stop (p : Nat → Bool) (t r : List Nat) (x : Nat)
    (ht : ∀ a ∈ t, p a = true) (hx : p x = false) :
    (t ++ x :: r).dropWhile p = x :: r := by
  induction t with
  | nil => simp [List.dropWhile_cons, hx]
  | cons a t ih =>
    have ha : p a = true := ht a (by simp)
    have ht2 : ∀ b ∈ t, p b = true := fun b hb => ht b (by simp [hb])
    simp only [List.cons_append, List.dropWhile_cons, ha, if_true, ih ht2]

theorem takeWhile_all (p : Nat → Bool) (t : List Nat) (ht : ∀ a ∈ t, p a = true) :
    t.takeWhile p = t := by
  induction t with
  | nil => rfl
  | cons a t ih =>
    have ha : p a = true := ht a (by simp)
    have ht2 : ∀ b ∈ t, p b = true := fun b hb => ht b (by simp [hb])
    simp only [List.takeWhile_cons, ha, if_true, ih ht2]

theorem dropWhile_all (p : Nat → Bool) (t : List Nat) (ht : ∀ a ∈ t, p a = true) :
    t.dropWhile p = [] := by
  induction t with
  | nil => rfl
  | cons a t ih =>
    have ha : p a = true := ht a (by simp)
    have ht2 : ∀ b ∈ t, p b = true := fun b hb => ht b (by simp [hb])
    simp only [List.dropWhile_cons, ha, if_true, ih ht2]

/-! ## `strtok` on the shapes `t` and `t|u` -/

theorem strtok_nil (delim : List Nat) : strtok [] delim = none := by
  simp [strtok]

theorem strtok_single (t : List Nat) (hne : t ≠ []) (h124 : 124 ∉ t) :
    strtok t [124] = some (t, []) := by
  cases t with
  | nil => exact absurd rfl hne
  | cons a t =>
    have ha : a ≠ 124 := fun h => h124 (by simp [h])
    have hall : ∀ b ∈ a :: t, (fun c => decide (c ∉ [124])) b = true := by
      intro b hb
      have : b ≠ 124 := fun h => h124 (h ▸ hb)
      simp [this]
    have hd : (a :: t).dropWhile (fun c => decide (c ∈ [124])) = a :: t := by
      simp [List.dropWhile_cons, ha]
    unfold strtok
    simp only [hd]
    rw [takeWhile_all _ _ hall, dropWhile_all _ _ hall]
    simp

theorem strtok_pair (t u : List Nat) (hne : t ≠ []) (h124 : 124 ∉ t) :
    strtok (t ++ 124 :: u) [124] = some (t, u) := by
  cases t with
  | nil => exact absurd rfl hne
  | cons a t =>
    have ha : a ≠ 124 := fun h => h124 (by simp [h])
    have hall : ∀ b ∈ a :: t, (fun c => decide (c ∉ [124])) b = true := by
      intro b hb
      have : b ≠ 124 := fun h => h124 (h ▸ hb)
      simp [this]
    have hx : (fun c => decide (c ∉ [124])) 124 = false := by simp
    have hd : (a :: t ++ 124 :: u).dropWhile (fun c => decide (c ∈ [124])) = a :: t ++ 124 :: u := by
      simp [List.dropWhile_cons, ha]
    unfold strtok
    simp only [hd]
    rw [takeWhile_append_stop _ _ _ _ hall hx, dropWhile_append_stop _ _ _ _ hall hx]
    simp

/-! ## The two loops on a buffer that holds `[[c]]` at the cursor -/

theorem byteAt_append_cons (l r : List Nat) (x : Nat) :
    byteAt (l ++ x :: r) l.length = some x := by
  unfold byteAt
  rw [List.getElem?_append_right (Nat.le_refl _)]
  simp

theorem scanLoop_stops (mid rest : List Nat) (size : Nat) (h : 93 ∉ mid) :
    ∀ (l1 : List Nat) (fuel : Nat), mid.length ≤ fuel → l1.length + mid.length ≤ size →
      scanLoop (l1 ++ mid ++ 93 :: rest) size fuel l1.length = l1.length + mid.length := by
  induction mid with
  | nil =>
    intro l1 fuel _ _
    cases fuel with
    | zero => simp [scanLoop]
    | succ f =>
      have hb : byteAt (l1 ++ [] ++ 93 :: rest) l1.length = some 93 := by
        simpa using byteAt_append_cons l1 rest 93
      rw [List.append_nil] at hb
      simp [scanLoop, hb]
  | cons m mid ih =>
    intro l1 fuel hf hsize
    have hm : m ≠ 93 := fun e => h (by simp [e])
    have hmid : 93 ∉ mid := fun e => h (by simp [e])
    rw [List.length_cons] at hf hsize
    cases fuel with
    | zero => omega
    | succ f =>
      have hb : byteAt (l1 ++ m :: mid ++ 93 :: rest) l1.length = some m := by
        simpa using byteAt_append_cons l1 (mid ++ 93 :: rest) m
      have hlen : l1.length < size := by omega
      have hl : (l1 ++ [m]).length = l1.length + 1 := by simp
      have hrec := ih hmid (l1 ++ [m]) f (by omega) (by rw [hl]; omega)
      have hdata : l1 ++ [m] ++ mid ++ 93 :: rest = l1 ++ m :: mid ++ 93 :: rest := by simp
      rw [hdata] at hrec
      simp only [scanLoop, hb, hlen, ne_eq, Option.some.injEq, hm, not_false_eq_true, and_self,
        if_true]
      rw [hl] at hrec
      rw [hrec, List.length_cons]
      omega

theorem length_doubled (pre c post : List Nat) :
    (pre ++ 91 :: 91 :: (c ++ 93 :: 93 :: post)).length
      = pre.length + c.length + 4 + post.length := by
  simp only [List.length_append, List.length_cons]
  omega

theorem scanLoop_doubled (pre c post after : List Nat) (h93 : 93 ∉ c) :
    scanLoop (pre ++ 91 :: 91 :: (c ++ 93 :: 93 :: post) ++ after)
        (pre ++ 91 :: 91 :: (c ++ 93 :: 93 :: post)).length
        ((pre ++ 91 :: 91 :: (c ++ 93 :: 93 :: post)).length - (pre.length + 1))
        (pre.length + 1)
      = pre.length + 2 + c.length := by
  have hmid : 93 ∉ 91 :: c := by
    intro h
    rcases List.mem_cons.mp h with h | h
    · exact absurd h (by decide)
    · exact h93 h
  have hl : (pre ++ [91]).length = pre.length + 1 := by simp
  have hlc : (91 :: c).length = c.length + 1 := by simp
  have hlen := length_doubled pre c post
  have h := scanLoop_stops (91 :: c) (93 :: post ++ after)
    (pre ++ 91 :: 91 :: (c ++ 93 :: 93 :: post)).length hmid (pre ++ [91])
    ((pre ++ 91 :: 91 :: (c ++ 93 :: 93 :: post)).length - (pre.length + 1))
    (by rw [hlc, hlen]; omega) (by rw [hl, hlc, hlen]; omega)
  have hdata : pre ++ [91] ++ 91 :: c ++ 93 :: (93 :: post ++ after)
      = pre ++ 91 :: 91 :: (c ++ 93 :: 93 :: post) ++ after := by simp
  rw [hdata, hl] at h
  rw [h, hlc]
  omega

theorem consumeClosing_doubled (pre c post after : List Nat) :
    consumeClosing (pre ++ 91 :: 91 :: (c ++ 93 :: 93 :: post) ++ after)
        (pre.length + 2 + c.length)
      = Step.value (pre.length + c.length + 4) := by
  have h1 : byteAt (pre ++ 91 :: 91 :: (c ++ 93 :: 93 :: post) ++ after)
      (pre.length + 2 + c.length) = some 93 := by
    have h := byteAt_append_cons (pre ++ 91 :: 91 :: c) (93 :: post ++ after) 93
    have hd : pre ++ 91 :: 91 :: c ++ 93 :: (93 :: post ++ after)
        = pre ++ 91 :: 91 :: (c ++ 93 :: 93 :: post) ++ after := by simp
    have hl : (pre ++ 91 :: 91 :: c).length = pre.length + 2 + c.length := by
      simp only [List.length_append, List.length_cons]
      omega
    rw [hd, hl] at h
    exact h
  have h2 : byteAt (pre ++ 91 :: 91 :: (c ++ 93 :: 93 :: post) ++ after)
      (pre.length + 2 + c.length + 1) = some 93 := by
    have h := byteAt_append_cons (pre ++ 91 :: 91 :: (c ++ [93])) (post ++ after) 93
    have hd : pre ++ 91 :: 91 :: (c ++ [93]) ++ 93 :: (post ++ after)
        = pre ++ 91 :: 91 :: (c ++ 93 :: 93 :: post) ++ after := by simp
    have hl : (pre ++ 91 :: 91 :: (c ++ [93])).length = pre.length + 2 + c.length + 1 := by
      simp only [List.length_append, List.length_cons, List.length_nil]
      omega
    rw [hd, hl] at h
    exact h
  unfold consumeClosing
  simp only [h1, h2, if_true]
  congr 1
  omega

theorem chunk_doubled (pre c post after : List Nat) :
    ((pre ++ 91 :: 91 :: (c ++ 93 :: 93 :: post) ++ after).drop pre.length).take (c.length + 4)
      = 91 :: 91 :: (c ++ [93, 93]) := by
  rw [List.append_assoc, List.drop_left]
  have h : 91 :: 91 :: (c ++ 93 :: 93 :: post) ++ after
      = (91 :: 91 :: (c ++ [93, 93])) ++ (post ++ after) := by simp
  have hl : c.length + 4 = (91 :: 91 :: (c ++ [93, 93])).length := by simp
  rw [h, hl, List.take_left]

theorem memcpy_doubled (c : List Nat) :
    memcpy (cmark_chunk_to_cstr (91 :: 91 :: (c ++ [93, 93]))) 2 c.length = some c := by
  unfold memcpy cmark_chunk_to_cstr
  have hle : 2 + c.length ≤ (91 :: 91 :: (c ++ [93, 93]) ++ [0]).length := by simp; omega
  rw [if_pos hle]
  simp

theorem contentsLenOf_add_four (n : Nat) : contentsLenOf (n + 4) = n := by
  unfold contentsLenOf
  rw [if_neg (by omega)]
  omega

/-- On a buffer that holds `[[c]]` at the cursor, with no `]` in a non-empty
`c`, lines 25-75 of `match` hand exactly `c` to the rest of the body, whatever
follows the buffer in memory. -/
theorem match_doubled (wl : Nat) (pre c post after : List Nat)
    (line block_offset column_offset : Int) (h93 : 93 ∉ c) (hne : c ≠ []) :
    match_ wl 91 ⟨pre ++ 91 :: 91 :: (c ++ 93 :: 93 :: post), after, pre.length, line,
        block_offset, column_offset⟩
      = matchContents wl
          ⟨pre ++ 91 :: 91 :: (c ++ 93 :: 93 :: post), after, pre.length, line,
            block_offset, column_offset⟩
          (pre.length + c.length + 4) (c.length + 4) c := by
  have hstart : byteAt (pre ++ 91 :: 91 :: (c ++ 93 :: 93 :: post) ++ after) pre.length
      = some 91 := by
    have h := byteAt_append_cons pre (91 :: (c ++ 93 :: 93 :: post) ++ after) 91
    simpa using h
  have hendne : ¬ (pre.length + c.length + 4 = pre.length + 1) := by omega
  have hsub : pre.length + c.length + 4 - pre.length = c.length + 4 := by omega
  have hclen : c.length ≠ 0 := fun h => hne (List.length_eq_zero.mp h)
  simp only [match_, ne_eq, not_true_eq_false, if_false, hstart, and_false,
    scanLoop_doubled pre c post after h93, consumeClosing_doubled, hendne, hsub, chunk_doubled,
    contentsLenOf_add_four, hclen, memcpy_doubled, reduceCtorEq]

/-- On a buffer that holds `[[]]` at the cursor, `match` returns `NULL`. -/
theorem match_doubled_empty (wl : Nat) (pre post after : List Nat)
    (line block_offset column_offset : Int) :
    match_ wl 91 ⟨pre ++ 91 :: 91 :: 93 :: 93 :: post, after, pre.length, line,
        block_offset, column_offset⟩
      = Outcome.returned none ⟨pre ++ 91 :: 91 :: 93 :: 93 :: post, after, pre.length, line,
          block_offset, column_offset⟩ := by
  have hstart : byteAt (pre ++ 91 :: 91 :: ([] ++ 93 :: 93 :: post) ++ after) pre.length
      = some 91 := by
    have h := byteAt_append_cons pre (91 :: ([] ++ 93 :: 93 :: post) ++ after) 91
    simpa using h
  have hendne : ¬ (pre.length + 0 + 4 = pre.length + 1) := by omega
  have hsub : pre.length + 0 + 4 - pre.length = 0 + 4 := by omega
  have h := scanLoop_doubled pre [] post after (by simp)
  have h2 := consumeClosing_doubled pre [] post after
  rw [List.nil_append] at hstart h h2
  rw [List.length_nil] at h h2
  simp only [match_, ne_eq, not_true_eq_false, if_false, hstart, and_false, h, h2, hendne, hsub,
    contentsLenOf_add_four, if_true, reduceCtorEq]
/-! ## The rest of the body of `match` on contents without a terminator -/

theorem getElem?_ne_of_not_mem (l : List Nat) (i x : Nat) (h : x ∉ l) : l[i]? ≠ some x :=
  fun e => h (List.getElem?_mem e)

theorem length_sub_one_append_zero (c : List Nat) (hne : c ≠ []) :
    (c ++ [0])[c.length - 1]? = c.getLast? := by
  have hpos : 0 < c.length := List.length_pos.mpr hne
  rw [List.getElem?_append_left (by omega), List.getLast?_eq_getElem?]

theorem matchContents_clean (wl : Nat) (ip : InlineParser) (e len : Nat) (c : List Nat)
    (h0 : 0 ∉ c) (hne : c ≠ []) (hhead : c.head? ≠ some 124)
    (hlast : c.getLast? ≠ some 124) :
    matchContents wl ip e len c = matchTokens wl ip e len (c ++ [0]) := by
  have hpos : 0 < c.length := List.length_pos.mpr hne
  have hfirst : (c ++ [0])[0]? ≠ some 124 := by
    rw [List.getElem?_append_left hpos, ← List.head?_eq_getElem?]
    exact hhead
  have hlen : strlen (c ++ [0]) = c.length := strlen_terminated c [] h0
  have hlen0 : ¬ (c.length = 0) := by omega
  have hl : (c ++ [0])[c.length - 1]? ≠ some 124 := by
    rw [length_sub_one_append_zero c hne]
    exact hlast
  simp only [matchContents, hfirst, if_false, hlen, hlen0, hl]

theorem matchContents_head_bar (wl : Nat) (ip : InlineParser) (e len : Nat) (c : List Nat) :
    matchContents wl ip e len (124 :: c) = Outcome.returned none ip := by
  simp [matchContents]

theorem matchContents_last_bar (wl : Nat) (ip : InlineParser) (e len : Nat) (c : List Nat)
    (h0 : 0 ∉ c) (hlast : c.getLast? = some 124) :
    matchContents wl ip e len c = Outcome.returned none ip := by
  have hne : c ≠ [] := by
    intro h
    rw [h] at hlast
    simp at hlast
  have hlen : strlen (c ++ [0]) = c.length := strlen_terminated c [] h0
  have hpos : 0 < c.length := List.length_pos.mpr hne
  have hlen0 : ¬ (c.length = 0) := by omega
  have hl : (c ++ [0])[c.length - 1]? = some 124 := by
    rw [length_sub_one_append_zero c hne]
    exact hlast
  simp only [matchContents, hlen, hlen0, hl, if_true, if_false]
  split <;> rfl

theorem matchTokens_single (wl : Nat) (ip : InlineParser) (e len : Nat) (t : List Nat)
    (hne : t ≠ []) (h124 : 124 ∉ t) (h0 : 0 ∉ t) :
    matchTokens wl ip e len (t ++ [0])
      = Outcome.returned
          (some { type := wl % 65536, title := t, url := t, start_line := ip.line, end_line := ip.line,
                  start_column := cmark_inline_parser_get_column ip,
                  end_column := int32 (cmark_inline_parser_get_column ip + (len : Int)) })
          (cmark_inline_parser_set_offset ip (ip.offset + (e - ip.offset))) := by
  simp only [matchTokens, cmark_node_new_with_mem, cmark_inline_parser_get_line, cstr_terminated t [] h0, strtok_single t hne h124, strtok_nil,
    cmark_chunk_literal_terminated t [] h0]

theorem matchTokens_pair (wl : Nat) (ip : InlineParser) (e len : Nat) (t u : List Nat)
    (hne : t ≠ []) (h124 : 124 ∉ t) (h0 : 0 ∉ t)
    (hune : u ≠ []) (hu124 : 124 ∉ u) (hu0 : 0 ∉ u) :
    matchTokens wl ip e len (t ++ 124 :: u ++ [0])
      = Outcome.returned
          (some { type := wl % 65536, title := t, url := u, start_line := ip.line, end_line := ip.line,
                  start_column := cmark_inline_parser_get_column ip,
                  end_column := int32 (cmark_inline_parser_get_column ip + (len : Int)) })
          (cmark_inline_parser_set_offset ip (ip.offset + (e - ip.offset))) := by
  have hc0 : 0 ∉ t ++ 124 :: u := by
    intro h
    rcases List.mem_append.mp h with h | h
    · exact h0 h
    · rcases List.mem_cons.mp h with h | h
      · exact absurd h (by decide)
      · exact hu0 h
  have hupos : 0 < u.length := List.length_pos.mpr hune
  simp only [matchTokens, cmark_node_new_with_mem, cmark_inline_parser_get_line, cstr_terminated (t ++ 124 :: u) [] hc0, strtok_pair t u hne h124,
    strtok_single u hune hu124, cmark_chunk_literal_terminated t [] h0,
    cmark_chunk_literal_terminated u [] hu0, strlen_terminated u [] hu0, gt_iff_lt, hupos,
    if_true]

/-! ## `match` on `[[t]]` and on `[[t|u]]` -/

theorem buffer_shape (pre c post : List Nat) :
    pre ++ [91, 91] ++ c ++ [93, 93] ++ post = pre ++ 91 :: 91 :: (c ++ 93 :: 93 :: post) := by
  simp

theorem head?_ne_of_not_mem (c : List Nat) (x : Nat) (h : x ∉ c) : c.head? ≠ some x := by
  intro e
  cases c with
  | nil => simp at e
  | cons a c =>
    simp only [List.head?_cons, Option.some.injEq] at e
    exact h (by simp [e])

theorem getLast?_ne_of_not_mem (c : List Nat) (x : Nat) (h : x ∉ c) : c.getLast? ≠ some x :=
  fun e => h (List.mem_of_getLast?_eq_some e)

theorem match_simple (wl : Nat) (pre post after t : List Nat)
    (line block_offset column_offset : Int)
    (hne : t ≠ []) (h93 : 93 ∉ t) (h124 : 124 ∉ t) (h0 : 0 ∉ t) :
    match_ wl 91 ⟨pre ++ [91, 91] ++ t ++ [93, 93] ++ post, after, pre.length, line,
        block_offset, column_offset⟩
      = Outcome.returned
          (some { type := wl % 65536, title := t, url := t, start_line := line,
                  end_line := line,
                  start_column := int32 ((pre.length : Int) - column_offset + block_offset),
                  end_column := int32 (int32 ((pre.length : Int) - column_offset + block_offset)
                    + ((t.length + 4 : Nat) : Int)) })
          ⟨pre ++ [91, 91] ++ t ++ [93, 93] ++ post, after, pre.length + t.length + 4, line,
            block_offset, column_offset⟩ := by
  rw [buffer_shape, match_doubled wl pre t post after line block_offset column_offset h93 hne,
    matchContents_clean _ _ _ _ t h0 hne (head?_ne_of_not_mem t 124 h124)
      (getLast?_ne_of_not_mem t 124 h124),
    matchTokens_single _ _ _ _ t hne h124 h0]
  have hoff : pre.length + (pre.length + t.length + 4 - pre.length)
      = pre.length + t.length + 4 := by omega
  simp only [cmark_inline_parser_get_column, cmark_inline_parser_set_offset, hoff]

theorem match_piped (wl : Nat) (pre post after t u : List Nat)
    (line block_offset column_offset : Int)
    (hne : t ≠ []) (h93 : 93 ∉ t) (h124 : 124 ∉ t) (h0 : 0 ∉ t)
    (hune : u ≠ []) (hu93 : 93 ∉ u) (hu124 : 124 ∉ u) (hu0 : 0 ∉ u) :
    match_ wl 91 ⟨pre ++ [91, 91] ++ (t ++ [124] ++ u) ++ [93, 93] ++ post, after, pre.length,
        line, block_offset, column_offset⟩
      = Outcome.returned
          (some { type := wl % 65536, title := t, url := u, start_line := line,
                  end_line := line,
                  start_column := int32 ((pre.length : Int) - column_offset + block_offset),
                  end_column := int32 (int32 ((pre.length : Int) - column_offset + block_offset)
                    + (((t ++ [124] ++ u).length + 4 : Nat) : Int)) })
          ⟨pre ++ [91, 91] ++ (t ++ [124] ++ u) ++ [93, 93] ++ post, after,
            pre.length + (t ++ [124] ++ u).length + 4, line, block_offset, column_offset⟩ := by
  have hc : t ++ [124] ++ u = t ++ 124 :: u := by simp
  have hcne : t ++ 124 :: u ≠ [] := by simp
  have hc93 : 93 ∉ t ++ 124 :: u := by
    intro h
    rcases List.mem_append.mp h with h | h
    · exact h93 h
    · rcases List.mem_cons.mp h with h | h
      · exact absurd h (by decide)
      · exact hu93 h
  have hc0 : 0 ∉ t ++ 124 :: u := by
    intro h
    rcases List.mem_append.mp h with h | h
    · exact h0 h
    · rcases List.mem_cons.mp h with h | h
      · exact absurd h (by decide)
      · exact hu0 h
  have hhead : (t ++ 124 :: u).head? ≠ some 124 := by
    cases t with
    | nil => exact absurd rfl hne
    | cons a t =>
      intro e
      simp only [List.cons_append, List.head?_cons, Option.some.injEq] at e
      exact h124 (by simp [e])
  have hlast : (t ++ 124 :: u).getLast? ≠ some 124 := by
    have hu : (124 :: u) = [124] ++ u := rfl
    rw [hu, ← List.append_assoc, List.getLast?_append_of_ne_nil _ hune]
    exact getLast?_ne_of_not_mem u 124 hu124
  rw [hc, buffer_shape,
    match_doubled wl pre (t ++ 124 :: u) post after line block_offset column_offset hc93 hcne,
    matchContents_clean _ _ _ _ (t ++ 124 :: u) hc0 hcne hhead hlast,
    matchTokens_pair _ _ _ _ t u hne h124 h0 hune hu124 hu0]
  have hoff : pre.length + (pre.length + (t ++ 124 :: u).length + 4 - pre.length)
      = pre.length + (t ++ 124 :: u).length + 4 := by omega
  simp only [cmark_inline_parser_get_column, cmark_inline_parser_set_offset, hoff]

/-! ## What the scanning loop guarantees on every buffer -/

theorem scanLoop_ge (data : List Nat) (size : Nat) :
    ∀ (fuel a : Nat), a ≤ scanLoop data size fuel a := by
  intro fuel
  induction fuel with
  | zero => intro a; simp [scanLoop]
  | succ f ih =>
    intro a
    unfold scanLoop
    split
    · exact Nat.le_trans (Nat.le_succ a) (ih (a + 1))
    · exact Nat.le_refl a

theorem scanLoop_no_close (data : List Nat) (size : Nat) :
    ∀ (fuel a j : Nat), a ≤ j → j < scanLoop data size fuel a →
      j < size ∧ byteAt data j ≠ some 93 := by
  intro fuel
  induction fuel with
  | zero =>
    intro a j haj hj
    simp only [scanLoop] at hj
    omega
  | succ f ih =>
    intro a j haj hj
    unfold scanLoop at hj
    split at hj
    · rename_i hc
      by_cases hja : j = a
      · rw [hja]; exact hc
      · exact ih (a + 1) j (by omega) hj
    · omega

theorem scanLoop_le (data : List Nat) (size : Nat) :
    ∀ (fuel a : Nat), scanLoop data size fuel a ≤ max a size := by
  intro fuel
  induction fuel with
  | zero => intro a; simp [scanLoop]
  | succ f ih =>
    intro a
    unfold scanLoop
    split
    · rename_i hc
      have h := ih (a + 1)
      have hm : max (a + 1) size = size := by omega
      rw [hm] at h
      omega
    · omega

theorem scanLoop_exit (data : List Nat) (size : Nat) :
    ∀ (fuel a : Nat), size - a ≤ fuel →
      ¬ (scanLoop data size fuel a < size
          ∧ byteAt data (scanLoop data size fuel a) ≠ some 93) := by
  intro fuel
  induction fuel with
  | zero =>
    intro a hf
    simp only [scanLoop]
    intro h
    omega
  | succ f ih =>
    intro a hf
    unfold scanLoop
    split
    · exact ih (a + 1) (by omega)
    · rename_i hc
      exact hc

/-- The loop has fuel enough: with the fuel that `match` gives it, it ends on
the first `]` of the chunk at or after `at`, or at or past the end of the
chunk. -/
theorem scanLoop_result (data : List Nat) (size a : Nat) :
    byteAt data (scanLoop data size (size - a) a) = some 93
      ∨ size ≤ scanLoop data size (size - a) a := by
  have h := scanLoop_exit data size (size - a) a (Nat.le_refl _)
  by_cases hlt : scanLoop data size (size - a) a < size
  · left
    by_contra hne
    exact h ⟨hlt, hne⟩
  · right
    omega

theorem byteAt_lt (data : List Nat) (i x : Nat) (h : byteAt data i = some x) :
    i < data.length := by
  unfold byteAt at h
  by_contra hge
  rw [List.getElem?_eq_none (by omega)] at h
  exact absurd h (by simp)

/-! ## Inversion of a call that returns a node -/

theorem matchTokens_some (wl : Nat) (ip : InlineParser) (e len : Nat) (contents : List Nat)
    (node : Node) (ip' : InlineParser)
    (h : matchTokens wl ip e len contents = Outcome.returned (some node) ip') :
    ip' = cmark_inline_parser_set_offset ip (ip.offset + (e - ip.offset))
      ∧ node.type = wl % 65536
      ∧ node.start_line = cmark_inline_parser_get_line ip
      ∧ node.end_line = cmark_inline_parser_get_line ip
      ∧ node.start_column = cmark_inline_parser_get_column ip
      ∧ node.end_column = int32 (cmark_inline_parser_get_column ip + (len : Int))
      ∧ ∃ title rest, strtok (cstr contents) [124] = some (title, rest)
          ∧ node.title = cmark_chunk_literal (title ++ [0])
          ∧ ((strtok rest [124] = none ∧ node.url = node.title)
              ∨ ∃ link r, strtok rest [124] = some (link, r)
                  ∧ node.url = cmark_chunk_literal (link ++ [0])) := by
  unfold matchTokens at h
  simp only [] at h
  split at h
  · exact absurd h (by simp)
  · rename_i title rest htok
    split at h
    · rename_i hlink
      simp only [Outcome.returned.injEq, Option.some.injEq] at h
      obtain ⟨hn, hp⟩ := h
      subst hn
      subst hp
      exact ⟨rfl, rfl, rfl, rfl, rfl, rfl, title, rest, htok, rfl, Or.inl ⟨hlink, rfl⟩⟩
    · rename_i link r hlink
      split at h
      · simp only [Outcome.returned.injEq, Option.some.injEq] at h
        obtain ⟨hn, hp⟩ := h
        subst hn
        subst hp
        exact ⟨rfl, rfl, rfl, rfl, rfl, rfl, title, rest, htok, rfl,
          Or.inr ⟨link, r, hlink, rfl⟩⟩
      · exact absurd h (by simp)

theorem matchContents_some (wl : Nat) (ip : InlineParser) (e len : Nat) (copied : List Nat)
    (node : Node) (ip' : InlineParser)
    (h : matchContents wl ip e len copied = Outcome.returned (some node) ip') :
    (copied ++ [0])[0]? ≠ some 124 ∧ strlen (copied ++ [0]) ≠ 0
      ∧ (copied ++ [0])[strlen (copied ++ [0]) - 1]? ≠ some 124
      ∧ matchTokens wl ip e len (copied ++ [0]) = Outcome.returned (some node) ip' := by
  unfold matchContents at h
  simp only [] at h
  split at h
  · exact absurd h (by simp)
  · rename_i h1
    split at h
    · exact absurd h (by simp)
    · rename_i h2
      split at h
      · exact absurd h (by simp)
      · rename_i h3
        exact ⟨h1, h2, h3, h⟩

theorem consumeClosing_value (data : List Nat) (e0 e : Nat)
    (h : consumeClosing data e0 = Step.value e) :
    byteAt data e0 = some 93 ∧ byteAt data (e0 + 1) = some 93 ∧ e = e0 + 2 := by
  unfold consumeClosing at h
  split at h
  · exact absurd h (by simp)
  · rename_i b hb
    split at h
    · rename_i hb93
      split at h
      · exact absurd h (by simp)
      · rename_i b2 hb2
        split at h
        · rename_i hb293
          simp only [Step.value.injEq] at h
          subst hb93
          subst hb293
          exact ⟨hb, hb2, by omega⟩
        · exact absurd h (by simp)
    · exact absurd h (by simp)

theorem match_some (wl ch : Nat) (ip : InlineParser) (node : Node) (ip' : InlineParser)
    (h : match_ wl ch ip = Outcome.returned (some node) ip') :
    ch = 91 ∧ (ip.offset = 0 ∨ byteAt (ip.chunk ++ ip.after) ip.offset = some 91)
      ∧ byteAt (ip.chunk ++ ip.after)
          (scanLoop (ip.chunk ++ ip.after) ip.chunk.length
            (ip.chunk.length - (ip.offset + 1)) (ip.offset + 1)) = some 93
      ∧ byteAt (ip.chunk ++ ip.after)
          (scanLoop (ip.chunk ++ ip.after) ip.chunk.length
            (ip.chunk.length - (ip.offset + 1)) (ip.offset + 1) + 1) = some 93
      ∧ ∃ copied,
          memcpy (cmark_chunk_to_cstr
              (((ip.chunk ++ ip.after).drop ip.offset).take
                (scanLoop (ip.chunk ++ ip.after) ip.chunk.length
                    (ip.chunk.length - (ip.offset + 1)) (ip.offset + 1) + 2 - ip.offset)))
            2 (contentsLenOf
                (scanLoop (ip.chunk ++ ip.after) ip.chunk.length
                    (ip.chunk.length - (ip.offset + 1)) (ip.offset + 1) + 2 - ip.offset))
            = some copied
          ∧ matchContents wl ip
              (scanLoop (ip.chunk ++ ip.after) ip.chunk.length
                (ip.chunk.length - (ip.offset + 1)) (ip.offset + 1) + 2)
              (scanLoop (ip.chunk ++ ip.after) ip.chunk.length
                (ip.chunk.length - (ip.offset + 1)) (ip.offset + 1) + 2 - ip.offset) copied
            = Outcome.returned (some node) ip' := by
  unfold match_ at h
  split at h
  · exact absurd h (by simp)
  · rename_i hch
    simp only [] at h
    split at h
    · exact absurd h (by simp)
    · split at h
      · exact absurd h (by simp)
      · rename_i hopen
        split at h
        · exact absurd h (by simp)
        · exact absurd h (by simp)
        · rename_i end_ hcons
          obtain ⟨hb1, hb2, he⟩ := consumeClosing_value _ _ _ hcons
          subst he
          split at h
          · exact absurd h (by simp)
          · split at h
            · exact absurd h (by simp)
            · split at h
              · exact absurd h (by simp)
              · rename_i copied hcopy
                refine ⟨by simpa using hch, ?_, hb1, hb2, copied, hcopy, h⟩
                by_cases h0 : ip.offset = 0
                · exact Or.inl h0
                · right
                  by_contra hne
                  exact hopen ⟨by omega, hne⟩

/-! ## Inversion of a call that returns `NULL` -/

theorem matchTokens_none (wl : Nat) (ip : InlineParser) (e len : Nat) (contents : List Nat)
    (ip' : InlineParser)
    (h : matchTokens wl ip e len contents = Outcome.returned none ip') : ip' = ip := by
  unfold matchTokens at h
  simp only [] at h
  split at h
  · simp only [Outcome.returned.injEq, true_and] at h
    exact h.symm
  · split at h
    · exact absurd h (by simp)
    · split at h
      · exact absurd h (by simp)
      · simp only [Outcome.returned.injEq, true_and] at h
        exact h.symm

theorem matchContents_none (wl : Nat) (ip : InlineParser) (e len : Nat) (copied : List Nat)
    (ip' : InlineParser)
    (h : matchContents wl ip e len copied = Outcome.returned none ip') : ip' = ip := by
  unfold matchContents at h
  simp only [] at h
  split at h
  · simp only [Outcome.returned.injEq, true_and] at h
    exact h.symm
  · split at h
    · exact absurd h (by simp)
    · split at h
      · simp only [Outcome.returned.injEq, true_and] at h
        exact h.symm
      · exact matchTokens_none _ _ _ _ _ _ h

theorem match_none (wl ch : Nat) (ip ip' : InlineParser)
    (h : match_ wl ch ip = Outcome.returned none ip') : ip' = ip := by
  unfold match_ at h
  split at h
  · simp only [Outcome.returned.injEq, true_and] at h
    exact h.symm
  · simp only [] at h
    split at h
    · exact absurd h (by simp)
    · split at h
      · simp only [Outcome.returned.injEq, true_and] at h
        exact h.symm
      · split at h
        · exact absurd h (by simp)
        · simp only [Outcome.returned.injEq, true_and] at h
          exact h.symm
        · split at h
          · simp only [Outcome.returned.injEq, true_and] at h
            exact h.symm
          · split at h
            · simp only [Outcome.returned.injEq, true_and] at h
              exact h.symm
            · split at h
              · exact absurd h (by simp)
              · exact matchContents_none _ _ _ _ _ _ h

/-! ## What a token of `strtok` is made of -/

theorem strtok_some (s delim tok rest : List Nat) (h : strtok s delim = some (tok, rest)) :
    tok ≠ [] ∧ (∀ c ∈ tok, c ∉ delim) ∧ (∀ c ∈ tok, c ∈ s) ∧ (∀ c ∈ rest, c ∈ s) := by
  unfold strtok at h
  simp only [] at h
  split at h
  · exact absurd h (by simp)
  · rename_i hs1
    simp only [Option.some.injEq, Prod.mk.injEq] at h
    obtain ⟨htok, hrest⟩ := h
    have hsub : ∀ c ∈ s.dropWhile (fun c => decide (c ∈ delim)), c ∈ s :=
      fun c hc => List.dropWhile_subset _ hc
    refine ⟨?_, ?_, ?_, ?_⟩
    · cases hd : s.dropWhile (fun c => decide (c ∈ delim)) with
      | nil => exact absurd hd hs1
      | cons a l =>
        have hnot := List.head?_dropWhile_not (fun c => decide (c ∈ delim)) s
        rw [hd] at hnot htok
        simp only [List.head?_cons, decide_eq_false_iff_not] at hnot
        rw [← htok]
        simp [List.takeWhile_cons, hnot]
    · intro c hc
      rw [← htok] at hc
      have := List.mem_takeWhile_imp hc
      simpa using this
    · intro c hc
      rw [← htok] at hc
      exact hsub c (List.takeWhile_subset _ hc)
    · intro c hc
      rw [← hrest] at hc
      exact hsub c (List.dropWhile_subset _ (List.mem_of_mem_drop hc))

theorem cmark_chunk_literal_token (tok : List Nat) (h0 : 0 ∉ tok) :
    cmark_chunk_literal (tok ++ [0]) = tok :=
  cmark_chunk_literal_terminated tok [] h0

/-- The node that `matchTokens` returns holds the first token as its title and
the first or the second token as its target; neither holds a 0 byte. -/
theorem matchTokens_fields (wl : Nat) (ip : InlineParser) (e len : Nat) (contents : List Nat)
    (node : Node) (ip' : InlineParser)
    (h : matchTokens wl ip e len contents = Outcome.returned (some node) ip') :
    ∃ title rest, strtok (cstr contents) [124] = some (title, rest) ∧ node.title = title
      ∧ 0 ∉ node.title ∧ 0 ∉ node.url
      ∧ ((strtok rest [124] = none ∧ node.url = title)
          ∨ ∃ link r, strtok rest [124] = some (link, r) ∧ node.url = link) := by
  obtain ⟨_, _, _, _, _, _, title, rest, htok, htitle, hurl⟩ :=
    matchTokens_some wl ip e len contents node ip' h
  obtain ⟨_, _, hsub, hrsub⟩ := strtok_some _ _ _ _ htok
  have hz := zero_not_mem_cstr contents
  have ht0 : 0 ∉ title := fun hm => hz (hsub 0 hm)
  rw [cmark_chunk_literal_token title ht0] at htitle
  rcases hurl with ⟨hnone, hu⟩ | ⟨link, r, hlink, hu⟩
  · have hurl2 : node.url = title := by rw [hu, htitle]
    exact ⟨title, rest, htok, htitle, by rw [htitle]; exact ht0, by rw [hurl2]; exact ht0,
      Or.inl ⟨hnone, hurl2⟩⟩
  · obtain ⟨_, _, hlsub, _⟩ := strtok_some _ _ _ _ hlink
    have hl0 : 0 ∉ link := fun hm => hz (hrsub 0 (hlsub 0 hm))
    rw [cmark_chunk_literal_token link hl0] at hu
    exact ⟨title, rest, htok, htitle, by rw [htitle]; exact ht0, by rw [hu]; exact hl0,
      Or.inr ⟨link, r, hlink, hu⟩⟩

/-! ## The bytes that line 75 copies -/

theorem memcpy_chunk (data : List Nat) (s k : Nat) (hk : k + 1 < data.length)
    (hsk : s + 2 ≤ k) :
    memcpy (cmark_chunk_to_cstr ((data.drop s).take (k + 2 - s))) 2 (contentsLenOf (k + 2 - s))
      = some ((data.drop (s + 2)).take (k - (s + 2))) := by
  have hlen : ((data.drop s).take (k + 2 - s)).length = k + 2 - s := by
    rw [List.length_take, List.length_drop]
    omega
  have hc : contentsLenOf (k + 2 - s) = k - (s + 2) := by
    unfold contentsLenOf
    rw [if_neg (by omega)]
    omega
  unfold memcpy cmark_chunk_to_cstr
  rw [hc, if_pos (by rw [List.length_append, hlen]; simp; omega)]
  congr 1
  apply List.ext_getElem?
  intro i
  by_cases hi : i < k - (s + 2)
  · rw [List.getElem?_take_of_lt hi, List.getElem?_take_of_lt hi, List.getElem?_drop,
      List.getElem?_drop, List.getElem?_append_left (by rw [hlen]; omega),
      List.getElem?_take_of_lt (by omega), List.getElem?_drop]
    congr 1
    omega
  · rw [List.getElem?_eq_none (by rw [List.length_take]; omega),
      List.getElem?_eq_none (by rw [List.length_take]; omega)]

theorem memcpy_chunk_short (data : List Nat) (s : Nat) :
    memcpy (cmark_chunk_to_cstr ((data.drop s).take 3)) 2 (contentsLenOf 3) = none := by
  have hlen : ((data.drop s).take 3).length ≤ 3 := by
    rw [List.length_take]
    omega
  have hc : contentsLenOf 3 = 2 ^ 64 - 1 := by decide
  unfold memcpy cmark_chunk_to_cstr
  rw [hc, if_neg]
  rw [List.length_append]
  simp only [List.length_cons, List.length_nil]
  omega

/-- Bytes below the length of the chunk are read from the chunk. -/
theorem inner_in_chunk (chunk after : List Nat) (a k : Nat) (hk : k ≤ chunk.length) :
    ((chunk ++ after).drop a).take (k - a) = (chunk.drop a).take (k - a) := by
  apply List.ext_getElem?
  intro i
  by_cases hi : i < k - a
  · rw [List.getElem?_take_of_lt hi, List.getElem?_take_of_lt hi, List.getElem?_drop,
      List.getElem?_drop, List.getElem?_append_left (by omega)]
  · rw [List.getElem?_eq_none (by rw [List.length_take]; omega),
      List.getElem?_eq_none (by rw [List.length_take]; omega)]

/-- When `match` returns a node, the scan stopped inside the chunk at least two
bytes after the opening character, and the bytes handed to the rest of the body
are those of the chunk between index `s+2` and that position. -/
theorem match_some_inner (wl ch : Nat) (ip : InlineParser) (node : Node) (ip' : InlineParser)
    (h : match_ wl ch ip = Outcome.returned (some node) ip') :
    ∃ k, k = scanLoop (ip.chunk ++ ip.after) ip.chunk.length
              (ip.chunk.length - (ip.offset + 1)) (ip.offset + 1)
      ∧ ip.offset + 2 ≤ k ∧ k ≤ ip.chunk.length ∧ ip'.offset = k + 2
      ∧ matchContents wl ip (k + 2) (k + 2 - ip.offset)
          ((ip.chunk.drop (ip.offset + 2)).take (k - (ip.offset + 2)))
          = Outcome.returned (some node) ip' := by
  obtain ⟨_, _, _, hb2, copied, hcopy, hcont⟩ := match_some wl ch ip node ip' h
  have hge := scanLoop_ge (ip.chunk ++ ip.after) ip.chunk.length
    (ip.chunk.length - (ip.offset + 1)) (ip.offset + 1)
  have hle := scanLoop_le (ip.chunk ++ ip.after) ip.chunk.length
    (ip.chunk.length - (ip.offset + 1)) (ip.offset + 1)
  have hlt := byteAt_lt _ _ _ hb2
  generalize scanLoop (ip.chunk ++ ip.after) ip.chunk.length
    (ip.chunk.length - (ip.offset + 1)) (ip.offset + 1) = k at hb2 hcopy hcont hge hle hlt
  have hsk : ip.offset + 2 ≤ k := by
    by_contra hlt2
    have hk : k = ip.offset + 1 := by omega
    subst hk
    have h3 : ip.offset + 1 + 2 - ip.offset = 3 := by omega
    rw [h3, memcpy_chunk_short] at hcopy
    exact absurd hcopy (by simp)
  have hksize : k ≤ ip.chunk.length := by omega
  rw [memcpy_chunk (ip.chunk ++ ip.after) ip.offset k hlt hsk] at hcopy
  simp only [Option.some.injEq] at hcopy
  subst hcopy
  rw [inner_in_chunk ip.chunk ip.after (ip.offset + 2) k hksize] at hcont
  obtain ⟨_, _, _, htok⟩ := matchContents_some _ _ _ _ _ _ _ hcont
  obtain ⟨hip, _⟩ := matchTokens_some _ _ _ _ _ _ _ htok
  refine ⟨k, rfl, hsk, hksize, ?_, hcont⟩
  rw [hip]
  show ip.offset + (k + 2 - ip.offset) = k + 2
  omega

/-! ## `strtok` on a text that starts with a byte other than the delimiter -/

theorem nonbar_pred : (fun c : Nat => decide (c ∉ [124])) = (fun c : Nat => decide (c ≠ 124)) := by
  funext c
  simp

theorem bar_pred : (fun c : Nat => decide (c ∈ [124])) = (fun c : Nat => decide (c = 124)) := by
  funext c
  simp

theorem strtok_of_head (c : List Nat) (hne : c ≠ []) (hhead : c.head? ≠ some 124) :
    strtok c [124]
      = some (c.takeWhile (fun b => decide (b ≠ 124)),
              (c.dropWhile (fun b => decide (b ≠ 124))).drop 1) := by
  cases c with
  | nil => exact absurd rfl hne
  | cons a c =>
    have ha : a ≠ 124 := by
      intro h
      exact hhead (by simp [h])
    have hd : (a :: c).dropWhile (fun c => decide (c ∈ [124])) = a :: c := by
      simp [List.dropWhile_cons, ha]
    unfold strtok
    simp only [hd, nonbar_pred]
    simp

theorem strtok_skip (s : List Nat)
    (hne : s.dropWhile (fun b => decide (b = 124)) ≠ []) :
    strtok s [124]
      = some ((s.dropWhile (fun b => decide (b = 124))).takeWhile (fun b => decide (b ≠ 124)),
              ((s.dropWhile (fun b => decide (b = 124))).dropWhile
                (fun b => decide (b ≠ 124))).drop 1) := by
  unfold strtok
  simp only [bar_pred, nonbar_pred, hne, if_false]

theorem strtok_none_of_all (s : List Nat)
    (hnil : s.dropWhile (fun b => decide (b = 124)) = []) : strtok s [124] = none := by
  unfold strtok
  simp only [bar_pred, hnil, if_true]

/-! ## The tokens of contents without a terminator -/

theorem token_after_bar_nonempty (c : List Nat) (hmem : 124 ∈ c)
    (hlast : c.getLast? ≠ some 124) :
    ((c.dropWhile (fun b => decide (b ≠ 124))).drop 1).dropWhile (fun b => decide (b = 124))
      ≠ [] := by
  intro hnil
  have hall : ∀ x ∈ (c.dropWhile (fun b => decide (b ≠ 124))).drop 1, x = 124 := by
    intro x hx
    have := (List.dropWhile_eq_nil_iff.mp hnil) x hx
    simpa using this
  cases hd : c.dropWhile (fun b => decide (b ≠ 124)) with
  | nil =>
    have := (List.dropWhile_eq_nil_iff.mp hd) 124 hmem
    simp at this
  | cons d tail =>
    have hnot := List.head?_dropWhile_not (fun b => decide (b ≠ 124)) c
    rw [hd] at hnot hall
    simp only [List.head?_cons, ne_eq, decide_not, Bool.not_eq_false', decide_eq_true_eq]
      at hnot
    simp only [List.drop_succ_cons, List.drop_zero] at hall
    have hsplit : c = c.takeWhile (fun b => decide (b ≠ 124)) ++ d :: tail := by
      rw [← hd, List.takeWhile_append_dropWhile]
    have hl : c.getLast? = (d :: tail).getLast? := by
      rw [hsplit, List.getLast?_append_of_ne_nil _ (by simp)]
    apply hlast
    rw [hl]
    cases hg : (d :: tail).getLast? with
    | none => simp at hg
    | some x =>
      have hx := List.mem_of_getLast?_eq_some hg
      rcases List.mem_cons.mp hx with h | h
      · rw [h, hnot]
      · rw [hall x h]

theorem clean_of_contents (copied : List Nat) (h0 : 0 ∉ copied)
    (h1 : (copied ++ [0])[0]? ≠ some 124) (h2 : strlen (copied ++ [0]) ≠ 0)
    (h3 : (copied ++ [0])[strlen (copied ++ [0]) - 1]? ≠ some 124) :
    copied ≠ [] ∧ copied.head? ≠ some 124 ∧ copied.getLast? ≠ some 124 := by
  have hlen : strlen (copied ++ [0]) = copied.length := strlen_terminated copied [] h0
  rw [hlen] at h2 h3
  have hne : copied ≠ [] := fun h => h2 (by rw [h]; rfl)
  have hpos : 0 < copied.length := List.length_pos.mpr hne
  refine ⟨hne, ?_, ?_⟩
  · rw [List.getElem?_append_left hpos, ← List.head?_eq_getElem?] at h1
    exact h1
  · rw [length_sub_one_append_zero copied hne] at h3
    exact h3

theorem matchTokens_triple (wl : Nat) (ip : InlineParser) (e len : Nat) (t u r : List Nat)
    (hne : t ≠ []) (h124 : 124 ∉ t) (h0 : 0 ∉ t)
    (hune : u ≠ []) (hu124 : 124 ∉ u) (hu0 : 0 ∉ u) (hr0 : 0 ∉ r) :
    matchTokens wl ip e len (t ++ 124 :: (u ++ 124 :: r) ++ [0])
      = Outcome.returned
          (some { type := wl % 65536, title := t, url := u, start_line := ip.line, end_line := ip.line,
                  start_column := cmark_inline_parser_get_column ip,
                  end_column := int32 (cmark_inline_parser_get_column ip + (len : Int)) })
          (cmark_inline_parser_set_offset ip (ip.offset + (e - ip.offset))) := by
  have hc0 : 0 ∉ t ++ 124 :: (u ++ 124 :: r) := by
    intro h
    rcases List.mem_append.mp h with h | h
    · exact h0 h
    · rcases List.mem_cons.mp h with h | h
      · exact absurd h (by decide)
      · rcases List.mem_append.mp h with h | h
        · exact hu0 h
        · rcases List.mem_cons.mp h with h | h
          · exact absurd h (by decide)
          · exact hr0 h
  have hupos : 0 < u.length := List.length_pos.mpr hune
  simp only [matchTokens, cmark_node_new_with_mem, cmark_inline_parser_get_line, cstr_terminated (t ++ 124 :: (u ++ 124 :: r)) [] hc0,
    strtok_pair t (u ++ 124 :: r) hne h124, strtok_pair u r hune hu124,
    cmark_chunk_literal_terminated t [] h0, cmark_chunk_literal_terminated u [] hu0,
    strlen_terminated u [] hu0, gt_iff_lt, hupos, if_true]

/-! ## 32-bit sums -/

theorem int32_of_range (x : Int) (hlo : -2147483648 ≤ x) (hhi : x ≤ 2147483647) :
    int32 x = x := by
  unfold int32
  omega

theorem int32_range (x : Int) : -2147483648 ≤ int32 x ∧ int32 x ≤ 2147483647 := by
  unfold int32
  omega

/-! ## The claims about the matcher and the renderer -/

/-- Claim C1 (simple form). For all byte strings `pre`, `post` and every
non-empty `t` without `]`, `|` and the 0 byte, `match` with trigger `[` on the
buffer `pre ++ [[ ++ t ++ ]] ++ post` with the cursor at offset `|pre|`
returns a node whose title is `t` and whose target is `t` (and moves the cursor
past the closing pair), whatever follows the buffer in memory. -/
theorem match_simple_form (wl : Nat) (pre post after t : List Nat)
    (line block_offset column_offset : Int)
    (hne : t ≠ []) (h93 : 93 ∉ t) (h124 : 124 ∉ t) (h0 : 0 ∉ t) :
    match_ wl 91 ⟨pre ++ [91, 91] ++ t ++ [93, 93] ++ post, after, pre.length, line,
        block_offset, column_offset⟩
      = Outcome.returned
          (some { type := wl % 65536, title := t, url := t, start_line := line,
                  end_line := line,
                  start_column := int32 ((pre.length : Int) - column_offset + block_offset),
                  end_column := int32 (int32 ((pre.length : Int) - column_offset + block_offset)
                    + ((t.length + 4 : Nat) : Int)) })
          ⟨pre ++ [91, 91] ++ t ++ [93, 93] ++ post, after, pre.length + t.length + 4, line,
            block_offset, column_offset⟩ :=
  match_simple wl pre post after t line block_offset column_offset hne h93 h124 h0

/-- Claim C1 at `x[[Foo]]y` with the cursor at offset 1. -/
theorem match_simple_form_witness :
    match_ 7 91 ⟨[120] ++ [91, 91] ++ [70, 111, 111] ++ [93, 93] ++ [121], [0],
        [120].length, 1, 1, 0⟩
      = Outcome.returned
          (some { type := 7 % 65536, title := [70, 111, 111], url := [70, 111, 111],
                  start_line := 1, end_line := 1,
                  start_column := int32 (([120].length : Int) - 0 + 1),
                  end_column := int32 (int32 (([120].length : Int) - 0 + 1)
                    + (([70, 111, 111].length + 4 : Nat) : Int)) })
          ⟨[120] ++ [91, 91] ++ [70, 111, 111] ++ [93, 93] ++ [121], [0],
            [120].length + [70, 111, 111].length + 4, 1, 1, 0⟩ :=
  match_simple_form 7 [120] [121] [0] [70, 111, 111] 1 1 0 (by decide) (by decide)
    (by decide) (by decide)

/-- Claim C2 (piped form). For all byte strings `pre`, `post` and all non-empty
`t`, `u` without `]`, `|` and the 0 byte, `match` with trigger `[` on the buffer
`pre ++ [[ ++ t ++ | ++ u ++ ]] ++ post` with the cursor at offset `|pre|`
returns a node whose title is `t` and whose target is `u`, whatever follows the
buffer in memory. -/
theorem match_piped_form (wl : Nat) (pre post after t u : List Nat)
    (line block_offset column_offset : Int)
    (hne : t ≠ []) (h93 : 93 ∉ t) (h124 : 124 ∉ t) (h0 : 0 ∉ t)
    (hune : u ≠ []) (hu93 : 93 ∉ u) (hu124 : 124 ∉ u) (hu0 : 0 ∉ u) :
    match_ wl 91 ⟨pre ++ [91, 91] ++ t ++ [124] ++ u ++ [93, 93] ++ post, after, pre.length,
        line, block_offset, column_offset⟩
      = Outcome.returned
          (some { type := wl % 65536, title := t, url := u, start_line := line,
                  end_line := line,
                  start_column := int32 ((pre.length : Int) - column_offset + block_offset),
                  end_column := int32 (int32 ((pre.length : Int) - column_offset + block_offset)
                    + ((t.length + 1 + u.length + 4 : Nat) : Int)) })
          ⟨pre ++ [91, 91] ++ t ++ [124] ++ u ++ [93, 93] ++ post, after,
            pre.length + (t.length + 1 + u.length) + 4, line, block_offset,
            column_offset⟩ := by
  have hbuf : pre ++ [91, 91] ++ t ++ [124] ++ u ++ [93, 93] ++ post
      = pre ++ [91, 91] ++ (t ++ [124] ++ u) ++ [93, 93] ++ post := by
    simp only [List.append_assoc]
  have hlen : (t ++ [124] ++ u).length = t.length + 1 + u.length := by
    simp only [List.length_append, List.length_cons, List.length_nil]
  have h := match_piped wl pre post after t u line block_offset column_offset hne h93 h124 h0
    hune hu93 hu124 hu0
  rw [hlen] at h
  rw [hbuf]
  exact h

/-- Claim C2 at `x[[Foo|bar]]y` with the cursor at offset 1. -/
theorem match_piped_form_witness :
    match_ 7 91 ⟨[120] ++ [91, 91] ++ [70, 111, 111] ++ [124] ++ [98, 97, 114] ++ [93, 93]
          ++ [121], [0], [120].length, 1, 1, 0⟩
      = Outcome.returned
          (some { type := 7 % 65536, title := [70, 111, 111], url := [98, 97, 114],
                  start_line := 1, end_line := 1,
                  start_column := int32 (([120].length : Int) - 0 + 1),
                  end_column := int32 (int32 (([120].length : Int) - 0 + 1)
                    + (([70, 111, 111].length + 1 + [98, 97, 114].length + 4 : Nat) : Int)) })
          ⟨[120] ++ [91, 91] ++ [70, 111, 111] ++ [124] ++ [98, 97, 114] ++ [93, 93] ++ [121],
            [0], [120].length + ([70, 111, 111].length + 1 + [98, 97, 114].length) + 4, 1, 1,
            0⟩ :=
  match_piped_form 7 [120] [121] [0] [70, 111, 111] [98, 97, 114] 1 1 0 (by decide)
    (by decide) (by decide) (by decide) (by decide) (by decide) (by decide) (by decide)

/-- Claim C3 (render format). For every wikilink node, that is every node that
`match` returns, with title `t` and target `u`, and every prior output buffer
`b`, `html_render` at the enter event leaves the output buffer equal to `b`
followed by the bytes of `<a href=`, a double quote, `u`, a double quote, `>`,
`t` and `</a>`: `t` and `u` are inserted byte for byte and nothing else is
appended. The wikilink type tag is one that fits the 16-bit `type` field of a
node, as every tag of the host does. -/
theorem html_render_format (wl ch : Nat) (ip : InlineParser) (node : Node)
    (ip' : InlineParser) (b : List Nat) (hwl : wl < 65536)
    (h : match_ wl ch ip = Outcome.returned (some node) ip') :
    html_render wl b (some node) cmark_event_type.CMARK_EVENT_ENTER
      = b ++ [60, 97, 32, 104, 114, 101, 102, 61, 34] ++ node.url ++ [34, 62] ++ node.title
          ++ [60, 47, 97, 62] := by
  obtain ⟨_, _, _, _, copied, _, hcont⟩ := match_some wl ch ip node ip' h
  obtain ⟨_, _, _, htok⟩ := matchContents_some _ _ _ _ _ _ _ hcont
  obtain ⟨_, hty, _⟩ := matchTokens_some _ _ _ _ _ _ _ htok
  obtain ⟨_, _, _, _, ht0, hu0, _⟩ := matchTokens_fields _ _ _ _ _ _ _ htok
  have hty2 : node.type = wl := by
    rw [hty]
    exact Nat.mod_eq_of_lt hwl
  exact html_render_enter wl b node hty2 ht0 hu0

/-- Claim C3 on the node that `match` returns for `[[Foo|bar]]`, after the
output `x`. -/
theorem html_render_format_witness :
    html_render 7 [120] (some ⟨7, [70, 111, 111], [98, 97, 114], 1, 1, 1, 12⟩)
        cmark_event_type.CMARK_EVENT_ENTER
      = [120] ++ [60, 97, 32, 104, 114, 101, 102, 61, 34] ++ [98, 97, 114] ++ [34, 62]
          ++ [70, 111, 111] ++ [60, 47, 97, 62] :=
  html_render_format 7 91 ⟨[91, 91, 70, 111, 111, 124, 98, 97, 114, 93, 93], [0], 0, 1, 1, 0⟩
    ⟨7, [70, 111, 111], [98, 97, 114], 1, 1, 1, 12⟩
    ⟨[91, 91, 70, 111, 111, 124, 98, 97, 114, 93, 93], [0], 11, 1, 1, 0⟩ [120] (by decide)
    (by decide)

/-- Claim C4 (end to end). For all non-empty `t`, `u` without `]`, `|` and the 0
byte, `match` returns a node for the buffer `[[ ++ t ++ | ++ u ++ ]]` at
offset 0 and rendering that node (enter event, empty output buffer) yields
exactly the bytes of `<a href=`, a double quote, `u`, a double quote, `>`, `t`
and `</a>`; for the buffer `[[ ++ t ++ ]]` it yields the same with `t` in the
place of `u`. The wikilink type tag is one that fits the 16-bit `type` field of
a node. -/
theorem match_then_render (wl : Nat) (after t u : List Nat)
    (line block_offset column_offset : Int) (hwl : wl < 65536)
    (hne : t ≠ []) (h93 : 93 ∉ t) (h124 : 124 ∉ t) (h0 : 0 ∉ t)
    (hune : u ≠ []) (hu93 : 93 ∉ u) (hu124 : 124 ∉ u) (hu0 : 0 ∉ u) :
    (∃ node ip', match_ wl 91 ⟨[91, 91] ++ t ++ [124] ++ u ++ [93, 93], after, 0, line,
            block_offset, column_offset⟩ = Outcome.returned (some node) ip'
        ∧ html_render wl [] (some node) cmark_event_type.CMARK_EVENT_ENTER
          = [60, 97, 32, 104, 114, 101, 102, 61, 34] ++ u ++ [34, 62] ++ t
              ++ [60, 47, 97, 62])
    ∧ (∃ node ip', match_ wl 91 ⟨[91, 91] ++ t ++ [93, 93], after, 0, line,
            block_offset, column_offset⟩ = Outcome.returned (some node) ip'
        ∧ html_render wl [] (some node) cmark_event_type.CMARK_EVENT_ENTER
          = [60, 97, 32, 104, 114, 101, 102, 61, 34] ++ t ++ [34, 62] ++ t
              ++ [60, 47, 97, 62]) := by
  have hmod : wl % 65536 = wl := Nat.mod_eq_of_lt hwl
  constructor
  · have h := match_piped wl [] [] after t u line block_offset column_offset hne h93 h124 h0
      hune hu93 hu124 hu0
    have hbuf : [] ++ [91, 91] ++ (t ++ [124] ++ u) ++ [93, 93] ++ []
        = [91, 91] ++ t ++ [124] ++ u ++ [93, 93] := by
      simp only [List.nil_append, List.append_nil, List.append_assoc]
    rw [hbuf] at h
    refine ⟨_, _, h, ?_⟩
    have hr := html_render_enter wl []
      { type := wl % 65536, title := t, url := u, start_line := line, end_line := line,
        start_column := int32 ((([] : List Nat).length : Int) - column_offset + block_offset),
        end_column := int32 (int32 ((([] : List Nat).length : Int) - column_offset
          + block_offset) + (((t ++ [124] ++ u).length + 4 : Nat) : Int)) } hmod h0 hu0
    simpa [litOpen, litMid, litClose] using hr
  · have h := match_simple wl [] [] after t line block_offset column_offset hne h93 h124 h0
    have hbuf : [] ++ [91, 91] ++ t ++ [93, 93] ++ [] = [91, 91] ++ t ++ [93, 93] := by
      simp only [List.nil_append, List.append_nil]
    rw [hbuf] at h
    refine ⟨_, _, h, ?_⟩
    have hr := html_render_enter wl []
      { type := wl % 65536, title := t, url := t, start_line := line, end_line := line,
        start_column := int32 ((([] : List Nat).length : Int) - column_offset + block_offset),
        end_column := int32 (int32 ((([] : List Nat).length : Int) - column_offset
          + block_offset) + ((t.length + 4 : Nat) : Int)) } hmod h0 h0
    simpa [litOpen, litMid, litClose] using hr

/-- Claim C4 at `[[Foo|bar]]` and `[[Foo]]`. -/
theorem match_then_render_witness :
    (∃ node ip', match_ 7 91 ⟨[91, 91] ++ [70, 111, 111] ++ [124] ++ [98, 97, 114] ++ [93, 93],
            [0], 0, 1, 1, 0⟩ = Outcome.returned (some node) ip'
        ∧ html_render 7 [] (some node) cmark_event_type.CMARK_EVENT_ENTER
          = [60, 97, 32, 104, 114, 101, 102, 61, 34] ++ [98, 97, 114] ++ [34, 62]
              ++ [70, 111, 111] ++ [60, 47, 97, 62])
    ∧ (∃ node ip', match_ 7 91 ⟨[91, 91] ++ [70, 111, 111] ++ [93, 93], [0], 0, 1, 1, 0⟩
          = Outcome.returned (some node) ip'
        ∧ html_render 7 [] (some node) cmark_event_type.CMARK_EVENT_ENTER
          = [60, 97, 32, 104, 114, 101, 102, 61, 34] ++ [70, 111, 111] ++ [34, 62]
              ++ [70, 111, 111] ++ [60, 47, 97, 62]) :=
  match_then_render 7 [0] [70, 111, 111] [98, 97, 114] 1 1 0 (by decide) (by decide)
    (by decide) (by decide) (by decide) (by decide) (by decide) (by decide) (by decide)

/-- Claim C5 (no-match leaves the parser alone). For every buffer, cursor
offset and trigger character, if `match` returns no node then the offset of the
inline parser and the contents of its buffer after the call equal those before
the call. -/
theorem match_no_match_frame (wl ch : Nat) (ip ip' : InlineParser)
    (h : match_ wl ch ip = Outcome.returned none ip') :
    ip'.offset = ip.offset ∧ ip'.chunk = ip.chunk := by
  have he := match_none wl ch ip ip' h
  rw [he]
  exact ⟨rfl, rfl⟩

/-- Claim C5 at the unterminated `[[Foo`, followed in memory by the terminator
of the host buffer. -/
theorem match_no_match_frame_witness :
    match_ 7 91 ⟨[91, 91, 70, 111, 111], [0], 0, 1, 1, 0⟩
        = Outcome.returned none ⟨[91, 91, 70, 111, 111], [0], 0, 1, 1, 0⟩
      ∧ (⟨[91, 91, 70, 111, 111], [0], 0, 1, 1, 0⟩ : InlineParser).offset = 0
      ∧ (⟨[91, 91, 70, 111, 111], [0], 0, 1, 1, 0⟩ : InlineParser).chunk
          = [91, 91, 70, 111, 111] :=
  ⟨by decide,
    match_no_match_frame 7 91 ⟨[91, 91, 70, 111, 111], [0], 0, 1, 1, 0⟩
      ⟨[91, 91, 70, 111, 111], [0], 0, 1, 1, 0⟩ (by decide)⟩

/-- Claim C7 fails on the code: the buffer `[ab]]` holds no two consecutive `[`
bytes, yet `match` with trigger `[` at offset 0 returns a node (title and target
`b`) and moves the cursor to offset 5. -/
theorem match_single_bracket_node :
    (∀ i, ¬ (byteAt [91, 97, 98, 93, 93] i = some 91
              ∧ byteAt [91, 97, 98, 93, 93] (i + 1) = some 91))
      ∧ match_ 7 91 ⟨[91, 97, 98, 93, 93], [0], 0, 1, 1, 0⟩
          = Outcome.returned (some ⟨7, [98], [98], 1, 1, 1, 6⟩)
              ⟨[91, 97, 98, 93, 93], [0], 5, 1, 1, 0⟩ := by
  refine ⟨?_, by decide⟩
  intro i hi
  obtain ⟨h1, h2⟩ := hi
  have hlt := byteAt_lt _ _ _ h2
  simp only [List.length_cons, List.length_nil] at hlt
  have hcases : i = 0 ∨ i = 1 ∨ i = 2 ∨ i = 3 := by omega
  rcases hcases with rfl | rfl | rfl | rfl <;> revert h1 h2 <;> decide

/-- Claim C8 as stated fails: the contents `a`, 0, `|` hold no `]` and end with
`|`, yet `match` on `[[` ++ contents ++ `]]` at offset 0 returns a node (title
and target `a`), because `strlen` and `strtok` stop at the 0 byte. -/
theorem match_bar_after_terminator :
    93 ∉ [97, 0, 124] ∧ [97, 0, 124].getLast? = some 124
      ∧ match_ 7 91 ⟨[] ++ [91, 91] ++ [97, 0, 124] ++ [93, 93] ++ [], [0],
            ([] : List Nat).length, 1, 1, 0⟩
          = Outcome.returned (some ⟨7, [97], [97], 1, 1, 1, 8⟩)
              ⟨[] ++ [91, 91] ++ [97, 0, 124] ++ [93, 93] ++ [], [0], 7, 1, 1, 0⟩ := by
  decide

/-- Claim C8, amended (rejected contents). For all byte strings `pre`, `post`
and every `c` without `]`: if `c` is empty, or `c` begins with `|`, or `c`
contains no 0 byte and ends with `|`, then `match` with trigger `[` on
`pre ++ [[ ++ c ++ ]] ++ post` at offset `|pre|` returns no node and leaves the
parser as it was, whatever follows the buffer in memory. -/
theorem match_rejected_contents (wl : Nat) (pre post after c : List Nat)
    (line block_offset column_offset : Int) (h93 : 93 ∉ c)
    (hrej : c = [] ∨ c.head? = some 124 ∨ (0 ∉ c ∧ c.getLast? = some 124)) :
    match_ wl 91 ⟨pre ++ [91, 91] ++ c ++ [93, 93] ++ post, after, pre.length, line,
        block_offset, column_offset⟩
      = Outcome.returned none
          ⟨pre ++ [91, 91] ++ c ++ [93, 93] ++ post, after, pre.length, line,
            block_offset, column_offset⟩ := by
  rw [buffer_shape]
  rcases hrej with hnil | hhead | ⟨h0, hlast⟩
  · subst hnil
    exact match_doubled_empty wl pre post after line block_offset column_offset
  · cases c with
    | nil => exact absurd hhead (by simp)
    | cons a c =>
      simp only [List.head?_cons, Option.some.injEq] at hhead
      subst hhead
      rw [match_doubled wl pre (124 :: c) post after line block_offset column_offset h93
        (by simp)]
      exact matchContents_head_bar _ _ _ _ c
  · have hne : c ≠ [] := by
      intro hnil
      rw [hnil] at hlast
      exact absurd hlast (by simp)
    rw [match_doubled wl pre c post after line block_offset column_offset h93 hne]
    exact matchContents_last_bar _ _ _ _ c h0 hlast

/-- Claim C8, amended, at `x[[Foo|]]y` with the cursor at offset 1. -/
theorem match_rejected_contents_witness :
    match_ 7 91 ⟨[120] ++ [91, 91] ++ [70, 111, 111, 124] ++ [93, 93] ++ [121], [0],
        [120].length, 1, 1, 0⟩
      = Outcome.returned none
          ⟨[120] ++ [91, 91] ++ [70, 111, 111, 124] ++ [93, 93] ++ [121], [0], [120].length,
            1, 1, 0⟩ :=
  match_rejected_contents 7 [120] [121] [0] [70, 111, 111, 124] 1 1 0 (by decide)
    (Or.inr (Or.inr ⟨by decide, by decide⟩))

/-- Claim C9 fails on the code: the buffer `[[Foo` holds no `]` at all, so the
scan reaches the end of the buffer; the bytes that follow the buffer in memory
are `]`, `]` and 0. `match` with trigger `[` at offset 0 reads them, returns a
node (title and target `Foo`) and moves the cursor to offset 7. -/
theorem match_unterminated_returns_node :
    93 ∉ [91, 91, 70, 111, 111]
      ∧ scanLoop ([91, 91, 70, 111, 111] ++ [93, 93, 0]) [91, 91, 70, 111, 111].length
          ([91, 91, 70, 111, 111].length - (0 + 1)) (0 + 1) = [91, 91, 70, 111, 111].length
      ∧ match_ 7 91 ⟨[91, 91, 70, 111, 111], [93, 93, 0], 0, 1, 1, 0⟩
          = Outcome.returned (some ⟨7, [70, 111, 111], [70, 111, 111], 1, 1, 1, 8⟩)
              ⟨[91, 91, 70, 111, 111], [93, 93, 0], 7, 1, 1, 0⟩ := by
  decide

/-- Claim C10 (node invariant). For every buffer, cursor offset and trigger
character, whenever `match` returns a node, the title of the node is non-empty
and contains no `|` byte, and the target of the node is non-empty. -/
theorem match_node_invariant (wl ch : Nat) (ip : InlineParser) (node : Node)
    (ip' : InlineParser) (h : match_ wl ch ip = Outcome.returned (some node) ip') :
    node.title ≠ [] ∧ 124 ∉ node.title ∧ node.url ≠ [] := by
  obtain ⟨_, _, _, _, copied, _, hcont⟩ := match_some wl ch ip node ip' h
  obtain ⟨_, _, _, htok⟩ := matchContents_some _ _ _ _ _ _ _ hcont
  obtain ⟨title, rest, hstr, htitle, _, _, hurl⟩ := matchTokens_fields _ _ _ _ _ _ _ htok
  obtain ⟨htne, htd, _, _⟩ := strtok_some _ _ _ _ hstr
  have hbar : 124 ∉ title := fun hm => htd 124 hm (by simp)
  rw [htitle]
  refine ⟨htne, hbar, ?_⟩
  rcases hurl with ⟨_, hu⟩ | ⟨link, r, hlink, hu⟩
  · rw [hu]
    exact htne
  · rw [hu]
    exact (strtok_some _ _ _ _ hlink).1

/-- Claim C10 at `[[Foo|bar]]`. -/
theorem match_node_invariant_witness :
    [70, 111, 111] ≠ [] ∧ 124 ∉ [70, 111, 111] ∧ [98, 97, 114] ≠ [] :=
  match_node_invariant 7 91
    ⟨[91, 91, 70, 111, 111, 124, 98, 97, 114, 93, 93], [0], 0, 1, 1, 0⟩
    ⟨7, [70, 111, 111], [98, 97, 114], 1, 1, 1, 12⟩
    ⟨[91, 91, 70, 111, 111, 124, 98, 97, 114, 93, 93], [0], 11, 1, 1, 0⟩ (by decide)

/-! ## The claims about several separators, the renderer and the accessors -/

/-- Claim C11 (several separators). For all non-empty `t`, `u`, `r` without `]`,
`|` and the 0 byte, `match` on `[[ ++ t ++ | ++ u ++ | ++ r ++ ]]` at offset 0
returns a node with title `t` and target `u`: the text after the second `|` is
dropped and the match is not rejected. -/
theorem match_two_separators (wl : Nat) (after t u r : List Nat)
    (line block_offset column_offset : Int)
    (hne : t ≠ []) (h93 : 93 ∉ t) (h124 : 124 ∉ t) (h0 : 0 ∉ t)
    (hune : u ≠ []) (hu93 : 93 ∉ u) (hu124 : 124 ∉ u) (hu0 : 0 ∉ u)
    (hrne : r ≠ []) (hr93 : 93 ∉ r) (hr124 : 124 ∉ r) (hr0 : 0 ∉ r) :
    ∃ node ip',
      match_ wl 91 ⟨[91, 91] ++ t ++ [124] ++ u ++ [124] ++ r ++ [93, 93], after, 0, line,
            block_offset, column_offset⟩
          = Outcome.returned (some node) ip'
        ∧ node.title = t ∧ node.url = u := by
  have hbuf : [91, 91] ++ t ++ [124] ++ u ++ [124] ++ r ++ [93, 93]
      = [] ++ 91 :: 91 :: (t ++ 124 :: (u ++ 124 :: r) ++ 93 :: 93 :: []) := by
    simp
  have hcne : t ++ 124 :: (u ++ 124 :: r) ≠ [] := by simp
  have hc93 : 93 ∉ t ++ 124 :: (u ++ 124 :: r) := by
    intro h
    rcases List.mem_append.mp h with h | h
    · exact h93 h
    · rcases List.mem_cons.mp h with h | h
      · exact absurd h (by decide)
      · rcases List.mem_append.mp h with h | h
        · exact hu93 h
        · rcases List.mem_cons.mp h with h | h
          · exact absurd h (by decide)
          · exact hr93 h
  have hc0 : 0 ∉ t ++ 124 :: (u ++ 124 :: r) := by
    intro h
    rcases List.mem_append.mp h with h | h
    · exact h0 h
    · rcases List.mem_cons.mp h with h | h
      · exact absurd h (by decide)
      · rcases List.mem_append.mp h with h | h
        · exact hu0 h
        · rcases List.mem_cons.mp h with h | h
          · exact absurd h (by decide)
          · exact hr0 h
  have hhead : (t ++ 124 :: (u ++ 124 :: r)).head? ≠ some 124 := by
    cases t with
    | nil => exact absurd rfl hne
    | cons a t =>
      intro e
      simp only [List.cons_append, List.head?_cons, Option.some.injEq] at e
      exact h124 (by simp [e])
  have hlast : (t ++ 124 :: (u ++ 124 :: r)).getLast? ≠ some 124 := by
    have hshape : t ++ 124 :: (u ++ 124 :: r) = (t ++ 124 :: u ++ [124]) ++ r := by simp
    rw [hshape, List.getLast?_append_of_ne_nil _ hrne]
    exact getLast?_ne_of_not_mem r 124 hr124
  have hm := match_doubled wl [] (t ++ 124 :: (u ++ 124 :: r)) [] after line block_offset
    column_offset hc93 hcne
  rw [matchContents_clean _ _ _ _ _ hc0 hcne hhead hlast,
    matchTokens_triple _ _ _ _ t u r hne h124 h0 hune hu124 hu0 hr0] at hm
  rw [hbuf]
  exact ⟨_, _, hm, rfl, rfl⟩

/-- Claim C11 at `[[Foo|bar|baz]]`. -/
theorem match_two_separators_witness :
    ∃ node ip',
      match_ 7 91 ⟨[91, 91] ++ [70, 111, 111] ++ [124] ++ [98, 97, 114] ++ [124]
            ++ [98, 97, 122] ++ [93, 93], [0], 0, 1, 1, 0⟩
          = Outcome.returned (some node) ip'
        ∧ node.title = [70, 111, 111] ∧ node.url = [98, 97, 114] :=
  match_two_separators 7 [0] [70, 111, 111] [98, 97, 114] [98, 97, 122] 1 1 0 (by decide)
    (by decide) (by decide) (by decide) (by decide) (by decide) (by decide) (by decide)
    (by decide) (by decide) (by decide) (by decide)

/-- Claim C12 as stated fails: on `[[Foo|bar|baz]]` at offset 0 the inner
content after the first `|` is `bar|baz`, and `match` returns a node whose
target is `bar`. -/
theorem match_target_is_second_token :
    ((([91, 91, 70, 111, 111, 124, 98, 97, 114, 124, 98, 97, 122, 93, 93].drop 2).take
          11).dropWhile (fun b => decide (b ≠ 124))).drop 1
        = [98, 97, 114, 124, 98, 97, 122]
      ∧ match_ 7 91 ⟨[91, 91, 70, 111, 111, 124, 98, 97, 114, 124, 98, 97, 122, 93, 93],
            [0], 0, 1, 1, 0⟩
          = Outcome.returned (some ⟨7, [70, 111, 111], [98, 97, 114], 1, 1, 1, 16⟩)
              ⟨[91, 91, 70, 111, 111, 124, 98, 97, 114, 124, 98, 97, 122, 93, 93], [0], 15,
                1, 1, 0⟩
      ∧ [98, 97, 114] ≠ [98, 97, 114, 124, 98, 97, 122] := by
  decide

/-- Claim C12, amended (split on the separators). For every buffer and cursor
at which `match` returns a node and whose inner content (the bytes from index
`s+2` up to the closing pair) contains a `|` and no 0 byte, the title is the
text before the first `|`, and the target is the text that follows the first
`|`, after any further `|` bytes right behind it, up to the next `|` or the end
of the inner content. -/
theorem match_split_on_separators (wl ch : Nat) (ip : InlineParser) (node : Node)
    (ip' : InlineParser) (h : match_ wl ch ip = Outcome.returned (some node) ip')
    (h0 : 0 ∉ (ip.chunk.drop (ip.offset + 2)).take (ip'.offset - 2 - (ip.offset + 2)))
    (hbar : 124 ∈ (ip.chunk.drop (ip.offset + 2)).take (ip'.offset - 2 - (ip.offset + 2))) :
    node.title
        = ((ip.chunk.drop (ip.offset + 2)).take (ip'.offset - 2 - (ip.offset + 2))).takeWhile
            (fun b => decide (b ≠ 124))
      ∧ node.url
        = (((((ip.chunk.drop (ip.offset + 2)).take
                (ip'.offset - 2 - (ip.offset + 2))).dropWhile
              (fun b => decide (b ≠ 124))).drop 1).dropWhile
            (fun b => decide (b = 124))).takeWhile (fun b => decide (b ≠ 124)) := by
  obtain ⟨k, _, _, _, hoff, hcont⟩ := match_some_inner wl ch ip node ip' h
  have hk : ip'.offset - 2 = k := by omega
  rw [hk] at h0 hbar ⊢
  generalize (ip.chunk.drop (ip.offset + 2)).take (k - (ip.offset + 2)) = inner
    at h0 hbar hcont
  obtain ⟨h1, h2, h3, htok⟩ := matchContents_some _ _ _ _ _ _ _ hcont
  obtain ⟨hne, hhead, hlast⟩ := clean_of_contents inner h0 h1 h2 h3
  obtain ⟨title, rest, hstr, htitle, _, _, hurl⟩ := matchTokens_fields _ _ _ _ _ _ _ htok
  rw [cstr_terminated inner [] h0, strtok_of_head inner hne hhead] at hstr
  simp only [Option.some.injEq, Prod.mk.injEq] at hstr
  obtain ⟨ht, hr⟩ := hstr
  have hnonempty := token_after_bar_nonempty inner hbar hlast
  have hsecond := strtok_skip _ hnonempty
  rw [hr] at hsecond
  constructor
  · rw [htitle, ht]
  · rcases hurl with ⟨hnone, _⟩ | ⟨link, r, hlink, hu⟩
    · rw [hnone] at hsecond
      exact absurd hsecond (by simp)
    · rw [hlink] at hsecond
      simp only [Option.some.injEq, Prod.mk.injEq] at hsecond
      rw [hu, hsecond.1, ← hr]

/-- Claim C12, amended, at `[[Foo||bar|baz]]`: the title is `Foo` and the
target is `bar`. -/
theorem match_split_on_separators_witness :
    [70, 111, 111]
        = (([91, 91, 70, 111, 111, 124, 124, 98, 97, 114, 124, 98, 97, 122, 93, 93].drop
              (0 + 2)).take (16 - 2 - (0 + 2))).takeWhile (fun b => decide (b ≠ 124))
      ∧ [98, 97, 114]
        = ((((([91, 91, 70, 111, 111, 124, 124, 98, 97, 114, 124, 98, 97, 122, 93, 93].drop
                (0 + 2)).take (16 - 2 - (0 + 2))).dropWhile
              (fun b => decide (b ≠ 124))).drop 1).dropWhile
            (fun b => decide (b = 124))).takeWhile (fun b => decide (b ≠ 124)) :=
  match_split_on_separators 7 91
    ⟨[91, 91, 70, 111, 111, 124, 124, 98, 97, 114, 124, 98, 97, 122, 93, 93], [0], 0, 1, 1, 0⟩
    ⟨7, [70, 111, 111], [98, 97, 114], 1, 1, 1, 17⟩
    ⟨[91, 91, 70, 111, 111, 124, 124, 98, 97, 114, 124, 98, 97, 122, 93, 93], [0], 16, 1, 1,
      0⟩
    (by decide) (by decide) (by decide)

/-- Claim C13 (renderer no-output cases). For every node, event and output
buffer, if the event is not the enter event, or the node is absent, or the type
of the node is not the wikilink type, then `html_render` leaves the output
buffer exactly as it was. -/
theorem html_render_no_output (wl : Nat) (html : List Nat) (node : Option Node)
    (ev : cmark_event_type)
    (h : ev ≠ cmark_event_type.CMARK_EVENT_ENTER ∨ node = none
          ∨ ∃ n, node = some n ∧ n.type ≠ wl) :
    html_render wl html node ev = html := by
  unfold html_render
  split
  · rfl
  · rename_i hev
    rcases h with h | h | ⟨n, hn, hty⟩
    · exact absurd h hev
    · subst h
      rfl
    · subst hn
      simp only [cmark_gfm_extensions_get_wikilink_title, hty, ne_eq, not_false_eq_true,
        if_true]

/-- Claim C13 at the exit event of a wikilink node, after the output `x`. -/
theorem html_render_no_output_witness :
    html_render 7 [120] (some ⟨7, [70], [98], 1, 1, 1, 8⟩) cmark_event_type.CMARK_EVENT_EXIT
      = [120] :=
  html_render_no_output 7 [120] (some ⟨7, [70], [98], 1, 1, 1, 8⟩)
    cmark_event_type.CMARK_EVENT_EXIT (Or.inl (by decide))

/-- Claim C14 (accessors). `cmark_gfm_extensions_get_wikilink_title` and
`cmark_gfm_extensions_get_wikilink_url` return `NULL` if and only if the node is
`NULL` or its type differs from the wikilink type; for a wikilink node they
return the C string made of the stored title, and of the stored target, followed
by the terminator. -/
theorem accessors_null_iff (wl : Nat) (node : Option Node) :
    (cmark_gfm_extensions_get_wikilink_title wl node = none
        ↔ (node = none ∨ ∃ n, node = some n ∧ n.type ≠ wl))
      ∧ (cmark_gfm_extensions_get_wikilink_url wl node = none
        ↔ (node = none ∨ ∃ n, node = some n ∧ n.type ≠ wl))
      ∧ (∀ n, node = some n → n.type = wl →
          cmark_gfm_extensions_get_wikilink_title wl node = some (n.title ++ [0])
            ∧ cmark_gfm_extensions_get_wikilink_url wl node = some (n.url ++ [0])) := by
  cases node with
  | none =>
    refine ⟨⟨fun _ => Or.inl rfl, fun _ => rfl⟩, ⟨fun _ => Or.inl rfl, fun _ => rfl⟩, ?_⟩
    intro n hn
    exact absurd hn (by simp)
  | some m =>
    by_cases hty : m.type = wl
    · refine ⟨?_, ?_, ?_⟩
      · simp [cmark_gfm_extensions_get_wikilink_title, hty]
      · simp [cmark_gfm_extensions_get_wikilink_url, hty]
      · intro n hn _
        simp only [Option.some.injEq] at hn
        subst hn
        simp [cmark_gfm_extensions_get_wikilink_title, cmark_gfm_extensions_get_wikilink_url,
          cmark_chunk_to_cstr, hty]
    · refine ⟨?_, ?_, ?_⟩
      · simp [cmark_gfm_extensions_get_wikilink_title, hty]
      · simp [cmark_gfm_extensions_get_wikilink_url, hty]
      · intro n hn hn2
        simp only [Option.some.injEq] at hn
        subst hn
        exact absurd hn2 hty

/-- Claim C14 on the wikilink node with title `Foo` and target `bar`. -/
theorem accessors_null_iff_witness :
    cmark_gfm_extensions_get_wikilink_title 7
          (some ⟨7, [70, 111, 111], [98, 97, 114], 1, 1, 1, 12⟩)
        = some ([70, 111, 111] ++ [0])
      ∧ cmark_gfm_extensions_get_wikilink_url 7
          (some ⟨7, [70, 111, 111], [98, 97, 114], 1, 1, 1, 12⟩)
        = some ([98, 97, 114] ++ [0]) :=
  (accessors_null_iff 7 (some ⟨7, [70, 111, 111], [98, 97, 114], 1, 1, 1, 12⟩)).2.2
    ⟨7, [70, 111, 111], [98, 97, 114], 1, 1, 1, 12⟩ rfl rfl

/-- Claim C15 as stated fails: with the parser at column 2147483645, `match` on
`[[Foo]]` consumes 7 bytes and line 107 adds them to `start_column` in 32-bit
`int`: `end_column` is -2147483644, so `end_column - start_column` is not 7. -/
theorem match_span_wraps :
    match_ 7 91 ⟨[91, 91, 70, 111, 111, 93, 93], [0], 0, 1, 2147483645, 0⟩
        = Outcome.returned
            (some ⟨7, [70, 111, 111], [70, 111, 111], 1, 1, 2147483645, -2147483644⟩)
            ⟨[91, 91, 70, 111, 111, 93, 93], [0], 7, 1, 2147483645, 0⟩
      ∧ (-2147483644 : Int) - 2147483645 ≠ ((7 - 0 : Nat) : Int) := by
  decide

/-- Claim C15, amended (span). For every buffer and cursor at which `match`
returns a node, `start_line` and `end_line` of the node both equal the current
line of the parser, `start_column` equals its current column, `end_column` is
`start_column` plus the number of bytes consumed (new offset minus old offset)
computed in 32-bit `int`, and `end_column - start_column` equals the number of
bytes consumed whenever `start_column` plus that number is at most 2147483647;
at least 5 bytes are consumed. -/
theorem match_span (wl ch : Nat) (ip : InlineParser) (node : Node) (ip' : InlineParser)
    (h : match_ wl ch ip = Outcome.returned (some node) ip') :
    node.start_line = cmark_inline_parser_get_line ip
      ∧ node.end_line = cmark_inline_parser_get_line ip
      ∧ node.start_column = cmark_inline_parser_get_column ip
      ∧ node.end_column = int32 (node.start_column + ((ip'.offset - ip.offset : Nat) : Int))
      ∧ (node.start_column + ((ip'.offset - ip.offset : Nat) : Int) ≤ 2147483647 →
          node.end_column - node.start_column = ((ip'.offset - ip.offset : Nat) : Int))
      ∧ ip.offset + 4 < ip'.offset := by
  obtain ⟨k, _, hsk, _, hoff, hcont⟩ := match_some_inner wl ch ip node ip' h
  obtain ⟨_, h2, _, htok⟩ := matchContents_some _ _ _ _ _ _ _ hcont
  obtain ⟨_, _, hsl, hel, hsc, hec, _⟩ := matchTokens_some _ _ _ _ _ _ _ htok
  have hk3 : ip.offset + 3 ≤ k := by
    by_contra hlt
    have hk : k = ip.offset + 2 := by omega
    rw [hk] at h2
    have h00 : ip.offset + 2 - (ip.offset + 2) = 0 := by omega
    rw [h00, List.take_zero] at h2
    exact h2 (by decide)
  have hlen : ip'.offset - ip.offset = k + 2 - ip.offset := by omega
  have hend : node.end_column
      = int32 (node.start_column + ((ip'.offset - ip.offset : Nat) : Int)) := by
    rw [hec, hsc, hlen]
  refine ⟨hsl, hel, hsc, hend, ?_, by omega⟩
  intro hhi
  have hlo := (int32_range ((ip.offset : Int) - ip.column_offset + ip.block_offset)).1
  have hsc2 : node.start_column
      = int32 ((ip.offset : Int) - ip.column_offset + ip.block_offset) := hsc
  rw [hend, int32_of_range _ (by omega) hhi]
  omega

/-- Claim C15, amended, at `ab[[Foo|bar]]cd` with the cursor at offset 2, line
3, column 5. -/
theorem match_span_witness :
    (3 : Int) = cmark_inline_parser_get_line
          ⟨[97, 98, 91, 91, 70, 111, 111, 124, 98, 97, 114, 93, 93, 99, 100], [0], 2, 3, 3, 0⟩
      ∧ (3 : Int) = cmark_inline_parser_get_line
          ⟨[97, 98, 91, 91, 70, 111, 111, 124, 98, 97, 114, 93, 93, 99, 100], [0], 2, 3, 3, 0⟩
      ∧ (5 : Int) = cmark_inline_parser_get_column
          ⟨[97, 98, 91, 91, 70, 111, 111, 124, 98, 97, 114, 93, 93, 99, 100], [0], 2, 3, 3, 0⟩
      ∧ (16 : Int) = int32 (5 + ((13 - 2 : Nat) : Int))
      ∧ ((5 : Int) + ((13 - 2 : Nat) : Int) ≤ 2147483647 →
          (16 : Int) - 5 = ((13 - 2 : Nat) : Int))
      ∧ 2 + 4 < 13 :=
  match_span 7 91
    ⟨[97, 98, 91, 91, 70, 111, 111, 124, 98, 97, 114, 93, 93, 99, 100], [0], 2, 3, 3, 0⟩
    ⟨7, [70, 111, 111], [98, 97, 114], 3, 3, 5, 16⟩
    ⟨[97, 98, 91, 91, 70, 111, 111, 124, 98, 97, 114, 93, 93, 99, 100], [0], 13, 3, 3, 0⟩
    (by decide)

/-- Claim C16 (trigger precondition). For every buffer and cursor offset, if
the trigger character passed to `match` is not `[`, `match` returns no node and
leaves the parser as it was. -/
theorem match_trigger_precondition (wl ch : Nat) (ip : InlineParser) (h : ch ≠ 91) :
    match_ wl ch ip = Outcome.returned none ip := by
  unfold match_
  rw [if_pos h]

/-- Claim C16 on the well-formed `[[Foo]]` with the trigger character `(`. -/
theorem match_trigger_precondition_witness :
    match_ 7 40 ⟨[91, 91, 70, 111, 111, 93, 93], [0], 0, 1, 1, 0⟩
      = Outcome.returned none ⟨[91, 91, 70, 111, 111, 93, 93], [0], 0, 1, 1, 0⟩ :=
  match_trigger_precondition 7 40 ⟨[91, 91, 70, 111, 111, 93, 93], [0], 0, 1, 1, 0⟩ (by decide)

/-- Claim C18 fails on the code: in the buffer `[]]` the byte at offset 1 is
`]`, and `match` with trigger `[` at offset 0 does not return `NULL`: the length
of the matched chunk is 3, `contentsLen` wraps around, and the copy of line 75
runs past the block (undefined behaviour). -/
theorem match_empty_region_undefined :
    byteAt ([91, 93, 93] ++ [0]) (0 + 1) = some 93
      ∧ contentsLenOf 3 = 2 ^ 64 - 1
      ∧ match_ 7 91 ⟨[91, 93, 93], [0], 0, 1, 1, 0⟩ = Outcome.undefined := by
  decide

/-- Claim C20 (dead guard). Whenever the two loops of `match` let control reach
the test `end == at`, `end ≥ at + 2` holds, so the test is false: it never
causes a no-match, for any buffer, any memory after it and any cursor. -/
theorem match_end_guard_dead (ip : InlineParser) (end_ : Nat)
    (h : consumeClosing (ip.chunk ++ ip.after)
          (scanLoop (ip.chunk ++ ip.after) ip.chunk.length
            (ip.chunk.length - (ip.offset + 1)) (ip.offset + 1)) = Step.value end_) :
    ip.offset + 1 + 2 ≤ end_ ∧ ¬ (end_ = ip.offset + 1) := by
  obtain ⟨_, _, he⟩ := consumeClosing_value _ _ _ h
  have hge := scanLoop_ge (ip.chunk ++ ip.after) ip.chunk.length
    (ip.chunk.length - (ip.offset + 1)) (ip.offset + 1)
  constructor <;> omega

/-- Claim C20 at `[]]` with the cursor at offset 0: the test is reached with
`end` = 3 and `at` = 1. -/
theorem match_end_guard_dead_witness :
    0 + 1 + 2 ≤ 3 ∧ ¬ (3 = 0 + 1) :=
  match_end_guard_dead ⟨[91, 93, 93], [0], 0, 1, 1, 0⟩ 3 (by decide)

end Wikilink
